import Mathlib

/-!
# Digital library: record store, serializer and borrow/return engine

A shallow embedding of `src/main.c`.  C strings are modelled by the list of
their characters (terminator excluded), the `Database` array by the list of
its slots together with the separate `currentSize` counter the C code keeps,
and the file `books.db` by the list of its characters.  Allocation and
`fopen` are taken to succeed.
-/

set_option autoImplicit false

namespace DigitalLibrary

/-! ## Data model -/

/-- One book, the C struct `Database` (field order as in the source). -/
structure Database where
  isbn : List Char
  nameBook : List Char
  authors : List Char
  year : Int
  genre : List Char
  date : List Char
  borrowed : List Char
deriving DecidableEq, Repr

/-! ## C library functions used by the program -/

/-- Reads at most `n` characters from the stream, stopping after a newline:
returns the characters read and the rest of the stream. -/
def readChars : Nat → List Char → List Char × List Char
  | 0, s => ([], s)
  | _ + 1, [] => ([], [])
  | n + 1, c :: cs =>
    if c = '\n' then ([c], cs) else (c :: (readChars n cs).1, (readChars n cs).2)

/-- The call `fgets(buf, size, stream)`: at most `size - 1` characters are
stored.  The C function returns NULL exactly when the stream is at its end, which
callers test on the stream itself. -/
def fgets (size : Nat) (stream : List Char) : List Char × List Char :=
  readChars (size - 1) stream

/-- The statement `line[strcspn(line, "\n")] = 0`: the C string left in the buffer
ends before the first newline (or before a NUL byte that was read from the file). -/
def stripNewline (buf : List Char) : List Char :=
  buf.takeWhile (fun c => c ≠ '\n' && c ≠ '\x00')

/-- One call of `strtok` with delimiter `|` on the text that is left: leading
delimiters are skipped; the token runs up to the next delimiter, which is consumed.
Returns the token and the text left for the next call, or `none` (NULL). -/
def strtok (s : List Char) : Option (List Char × List Char) :=
  match s.dropWhile (fun c => c = '|') with
  | [] => none
  | c :: cs =>
    some ((c :: cs).takeWhile (fun c => c ≠ '|'), ((c :: cs).dropWhile (fun c => c ≠ '|')).drop 1)

/-- The statement pair `strncpy(dst, token, sizeof(dst) - 1); dst[sizeof(dst) - 1] = 0`
for a destination of `size` bytes. -/
def strncpy (size : Nat) (token : List Char) : List Char :=
  token.take (size - 1)

/-- The C predicate `isspace` in the C locale. -/
def isspace (c : Char) : Bool :=
  c = ' ' || c = '\t' || c = '\n' || c = '\x0b' || c = '\x0c' || c = '\r'

/-- Value of the leading run of decimal digits, continuing from `acc`. -/
def digitsValue : List Char → Nat → Nat
  | [], acc => acc
  | c :: cs, acc => if c.isDigit then digitsValue cs (10 * acc + (c.toNat - 48)) else acc

/-- The C function `atoi`: leading white space, an optional sign, then digits; text that
does not start with a number gives 0.  (The C result is undefined when the value
does not fit an `int`; the model returns the exact value.) -/
def atoi (s : List Char) : Int :=
  match s.dropWhile isspace with
  | '-' :: cs => -(digitsValue cs 0 : Int)
  | '+' :: cs => (digitsValue cs 0 : Int)
  | cs => (digitsValue cs 0 : Int)

/-- The decimal digit for a value below ten. -/
def digit (d : Nat) : Char := Char.ofNat (48 + d)

/-- Decimal digits of `n`, most significant first (`fuel` bounds the number of digits). -/
def decimalDigits : Nat → Nat → List Char
  | 0, _ => []
  | fuel + 1, n =>
    if n < 10 then [digit n] else decimalDigits fuel (n / 10) ++ [digit (n % 10)]

/-- Decimal text of a natural number, as `printf("%d")` prints it. -/
def printNat (n : Nat) : List Char := decimalDigits (n + 1) n

/-- The conversion `%d` of `printf` for an `int`. -/
def printInt (y : Int) : List Char :=
  if y < 0 then '-' :: printNat y.natAbs else printNat y.natAbs

/-- The conversions `%02d` and `%04d` for a value that is not negative: decimal text,
padded on the left with `0` up to the minimum `width`. -/
def padZero (width n : Nat) : List Char :=
  List.replicate (width - (printNat n).length) '0' ++ printNat n

/-! ## loadDatabase -/

/-- The seven diagnostics of `loadDatabase`, one per missing field. -/
inductive LoadError where
  | missingISBN
  | missingName
  | missingAuthors
  | missingYear
  | missingGenre
  | missingBorrowed
  | missingDate
deriving DecidableEq, Repr

deriving instance DecidableEq for Except

/-- The body of the reading loop after the resize (source lines 72-162): the
successive `strtok` calls fill the fields of the slot; the first NULL token
gives the diagnostic and `continue`. -/
def parseLine (line : List Char) : Except LoadError Database :=
  match strtok line with
  | none => .error .missingISBN
  | some (t1, r1) =>
  match strtok r1 with
  | none => .error .missingName
  | some (t2, r2) =>
  match strtok r2 with
  | none => .error .missingAuthors
  | some (t3, r3) =>
  match strtok r3 with
  | none => .error .missingYear
  | some (t4, r4) =>
  match strtok r4 with
  | none => .error .missingGenre
  | some (t5, r5) =>
  match strtok r5 with
  | none => .error .missingBorrowed
  | some (t6, r6) =>
  match strtok r6 with
  | none => .error .missingDate
  | some (t7, _) =>
    .ok { isbn := strncpy 15 t1, nameBook := strncpy 51 t2, authors := strncpy 201 t3,
          year := atoi t4, genre := strncpy 101 t5, borrowed := strncpy 6 t6,
          date := strncpy 11 t7 }

/-- State of the reading loop: the slots `[0, currentSize)` filled so far (so
`currentSize` is the length of `database`), the capacity `maxSize` and the
diagnostics written to stderr. -/
structure LoadState where
  database : List Database
  maxSize : Nat
  diagnostics : List LoadError
deriving DecidableEq, Repr

/-- The count `*currentSize` of the reading loop. -/
def LoadState.currentSize (st : LoadState) : Nat := st.database.length

/-- One iteration of the reading loop on the buffer `fgets` returned. -/
def loadStep (buf : List Char) (st : LoadState) : LoadState :=
  let maxSize := if st.database.length ≥ st.maxSize then st.maxSize + 10 else st.maxSize
  match parseLine (stripNewline buf) with
  | .ok book =>
    { database := st.database ++ [book], maxSize := maxSize, diagnostics := st.diagnostics }
  | .error e =>
    { database := st.database, maxSize := maxSize, diagnostics := st.diagnostics ++ [e] }

/-- The loop `while (fgets(line, sizeof(line), file))` with `char line[256]`. -/
def loadLoop : Nat → List Char → LoadState → LoadState
  | 0, _, st => st
  | fuel + 1, file, st =>
    match file with
    | [] => st
    | c :: cs => loadLoop fuel (fgets 256 (c :: cs)).2 (loadStep (fgets 256 (c :: cs)).1 st)

/-- The function `loadDatabase` on the content of `books.db` (empty when the file
was missing and has just been created).  Every call of `fgets` on a stream that
is not at its end reads at least one character, so the length of the file is enough fuel. -/
def loadDatabase (file : List Char) : LoadState :=
  loadLoop file.length file { database := [], maxSize := 10, diagnostics := [] }

/-! ## saveDatabase and the write loops -/

/-- One `fprintf(file, "%s|%s|%s|%d|%s|%s|%s\n", ...)`. -/
def formatRecord (b : Database) : List Char :=
  b.isbn ++ '|' :: (b.nameBook ++ '|' :: (b.authors ++ '|' :: (printInt b.year ++ '|' ::
    (b.genre ++ '|' :: (b.borrowed ++ '|' :: (b.date ++ ['\n']))))))

/-- The loop `for (i = 0; i < currentSize; i++) fprintf(...)` over the array. -/
def writeRecords : Nat → List Database → List Char
  | 0, _ => []
  | _ + 1, [] => []
  | n + 1, b :: rest => formatRecord b ++ writeRecords n rest

/-- The function `saveDatabase`: the new content of the file. -/
def saveDatabase (database : List Database) (currentSize : Nat) : List Char :=
  writeRecords currentSize database

/-! ## Mutations -/

/-- The fields that the prompt loops of `addBook` leave in the new slot: the ISBN
line (accepted when its length is 13), the title, the authors, the year (accepted
when at most 2025) and the genre. -/
structure BookInput where
  isbn : List Char
  nameBook : List Char
  authors : List Char
  year : Int
  genre : List Char
deriving DecidableEq, Repr

/-- What `addBook` leaves behind: the array, the two counters it updates through
its pointer arguments, and the content written to `books.db`. -/
structure AddResult where
  database : List Database
  currentSize : Nat
  maxSize : Nat
  file : List Char
deriving DecidableEq, Repr

/-- The record `addBook` builds in the slot `(*database)[*currentSize]`. -/
def newBook (inp : BookInput) : Database :=
  { isbn := inp.isbn, nameBook := inp.nameBook, authors := inp.authors, year := inp.year,
    genre := inp.genre, date := ['-'], borrowed := ['f', 'a', 'l', 's', 'e'] }

/-- Stores `b` in slot `i` of the array (a slot just past the known ones is added). -/
def writeSlot (database : List Database) (i : Nat) (b : Database) : List Database :=
  database.take i ++ b :: database.drop (i + 1)

/-- The function `addBook`, given the values its prompt loops accept. -/
def addBook (database : List Database) (currentSize maxSize : Nat) (inp : BookInput) :
    AddResult :=
  let maxSize1 := if currentSize ≥ maxSize then maxSize + 10 else maxSize
  let database1 := writeSlot database currentSize (newBook inp)
  { database := database1, currentSize := currentSize + 1, maxSize := maxSize1,
    file := writeRecords (currentSize + 1) database1 }

/-- Messages of `deleteBook`. -/
inductive DeleteMsg where
  | invalidIndex
  | deleted
deriving DecidableEq, Repr

/-- What `deleteBook` leaves behind: the array, the counter behind its pointer
argument, the content of `books.db` and the message printed. -/
structure DeleteResult where
  database : List Database
  currentSize : Nat
  file : List Char
  message : DeleteMsg
deriving DecidableEq, Repr

/-- The loop `for (i = index; i < *currentSize - 1; i++) database[i] = database[i + 1]`,
with `count` iterations left. -/
def shiftLoop (database : List Database) (i : Nat) : Nat → List Database
  | 0 => database
  | count + 1 =>
    match database[i + 1]? with
    | some b => shiftLoop (database.set i b) (i + 1) count
    | none => database

/-- The function `deleteBook`; `file` is the content of `books.db` before the call. -/
def deleteBook (database : List Database) (currentSize : Nat) (index : Int)
    (file : List Char) : DeleteResult :=
  if index < 0 ∨ index ≥ (currentSize : Int) then
    { database := database, currentSize := currentSize, file := file,
      message := .invalidIndex }
  else
    let database1 := shiftLoop database index.toNat (currentSize - 1 - index.toNat)
    { database := database1, currentSize := currentSize - 1,
      file := writeRecords (currentSize - 1) database1, message := .deleted }

/-- The fields of `struct tm` that `borrowBook` reads from `localtime`. -/
structure Tm where
  tm_mday : Nat
  tm_mon : Nat
  tm_year : Nat
deriving DecidableEq, Repr

/-- The call `sprintf(date, "%02d-%02d-%04d", tm_mday, tm_mon + 1, tm_year + 1900)`.
The result fits the 11 bytes of the field `date` when the year has at most four digits. -/
def formatDate (tm : Tm) : List Char :=
  padZero 2 tm.tm_mday ++ '-' :: (padZero 2 (tm.tm_mon + 1) ++ '-' :: padZero 4 (tm.tm_year + 1900))

/-- Messages of `borrowBook`. -/
inductive BorrowMsg where
  | borrowed
  | alreadyBorrowed
  | notFound
deriving DecidableEq, Repr

/-- The function `borrowBook`: scan of the slots `[0, currentSize)` for the first
record with the given ISBN; `tm` is the local time read on success. -/
def borrowBook : List Database → Nat → List Char → Tm → List Database × BorrowMsg
  | database, 0, _, _ => (database, .notFound)
  | [], _ + 1, _, _ => ([], .notFound)
  | b :: rest, n + 1, isbn, tm =>
    if b.isbn = isbn then
      if b.borrowed = ['f', 'a', 'l', 's', 'e'] then
        ({ b with borrowed := ['t', 'r', 'u', 'e'], date := formatDate tm } :: rest, .borrowed)
      else (b :: rest, .alreadyBorrowed)
    else (b :: (borrowBook rest n isbn tm).1, (borrowBook rest n isbn tm).2)

/-- Messages of `returnBook`. -/
inductive ReturnMsg where
  | returned
  | notBorrowed
  | notFound
deriving DecidableEq, Repr

/-- The function `returnBook`. -/
def returnBook : List Database → Nat → List Char → List Database × ReturnMsg
  | database, 0, _ => (database, .notFound)
  | [], _ + 1, _ => ([], .notFound)
  | b :: rest, n + 1, isbn =>
    if b.isbn = isbn then
      if b.borrowed = ['t', 'r', 'u', 'e'] then
        ({ b with borrowed := ['f', 'a', 'l', 's', 'e'], date := ['-'] } :: rest, .returned)
      else (b :: rest, .notBorrowed)
    else (b :: (returnBook rest n isbn).1, (returnBook rest n isbn).2)

/-! ## Lookup by ISBN and the main loop -/

/-- The scan of `findBookByISBN` (source lines 444-448): the first index below
`currentSize` whose ISBN compares equal, with the record there. -/
def scanISBN : List Database → Nat → List Char → Option (Nat × Database)
  | _, 0, _ => none
  | [], _ + 1, _ => none
  | b :: rest, n + 1, isbn =>
    if b.isbn = isbn then some (0, b)
    else (scanISBN rest n isbn).map (fun p => (p.1 + 1, p.2))

/-- What `findBookByISBN` leaves behind.  Its parameter `currentSize` is a copy:
`localSize` is the value of that copy at the end, which the caller never sees.
`found` is the record displayed, and `notFound` tells whether the final message
"Book with ISBN ... not found." was printed. -/
structure FindResult where
  database : List Database
  localSize : Nat
  file : List Char
  found : Option Database
  exitToMain : Bool
  notFound : Bool
deriving DecidableEq, Repr

/-- The function `findBookByISBN`, with the `action` the operator enters for the
record found (1 borrow, 2 delete, 3 and others back to the search menu, 4 back to
the main menu). -/
def findBookByISBN (database : List Database) (currentSize : Nat) (isbn : List Char)
    (action : Int) (tm : Tm) (file : List Char) : FindResult :=
  match scanISBN database currentSize isbn with
  | none =>
    { database := database, localSize := currentSize, file := file, found := none,
      exitToMain := false, notFound := true }
  | some (i, selectedBook) =>
    if action = 1 then
      let database1 := (borrowBook database currentSize selectedBook.isbn tm).1
      { database := database1, localSize := currentSize,
        file := saveDatabase database1 currentSize, found := some selectedBook,
        exitToMain := false, notFound := false }
    else if action = 2 then
      let d := deleteBook database currentSize (i : Int) file
      { database := d.database, localSize := d.currentSize,
        file := saveDatabase d.database d.currentSize, found := some selectedBook,
        exitToMain := false, notFound := false }
    else
      { database := database, localSize := currentSize, file := file,
        found := some selectedBook, exitToMain := decide (action = 4), notFound := false }

/-- The variables of `main` together with the content of `books.db`. -/
structure MainState where
  database : List Database
  currentSize : Nat
  maxSize : Nat
  file : List Char
deriving DecidableEq, Repr

/-- The records the main loop works with: the slots `[0, currentSize)`. -/
def MainState.records (st : MainState) : List Database := st.database.take st.currentSize

/-- Start of `main`: `maxSize = 50`, then `loadDatabase(&database, &currentSize)`. -/
def mainLoad (file : List Char) : MainState :=
  { database := (loadDatabase file).database, currentSize := (loadDatabase file).currentSize,
    maxSize := 50, file := file }

/-- Search menu, choice 2: `findBookByISBN(database, currentSize, isbn, &exitToMain)`.
The array is shared through the pointer; `currentSize` is passed by value. -/
def mainFindByISBN (st : MainState) (isbn : List Char) (action : Int) (tm : Tm) :
    MainState :=
  let r := findBookByISBN st.database st.currentSize isbn action tm st.file
  { st with database := r.database, file := r.file }

/-- Main menu, choice 2: `addBook(&database, &currentSize, &maxSize)` and then
`saveDatabase("books.db", database, currentSize)`. -/
def mainAdd (st : MainState) (inp : BookInput) : MainState :=
  let r := addBook st.database st.currentSize st.maxSize inp
  { database := r.database, currentSize := r.currentSize, maxSize := r.maxSize,
    file := saveDatabase r.database r.currentSize }

/-- Main menu, choice 3: `returnBook(database, currentSize, isbn)` and then
`saveDatabase("books.db", database, currentSize)`. -/
def mainReturn (st : MainState) (isbn : List Char) : MainState :=
  let database1 := (returnBook st.database st.currentSize isbn).1
  { st with database := database1, file := saveDatabase database1 st.currentSize }

/-! ## showBorrowedBooks -/

/-- One block printed by `showBorrowedBooks`: ISBN, title, authors and borrow date. -/
structure BorrowedEntry where
  isbn : List Char
  nameBook : List Char
  authors : List Char
  date : List Char
deriving DecidableEq, Repr

/-- The loop of `showBorrowedBooks` over the slots `[0, currentSize)`: the flag `found`
and the blocks printed, in the order of printing. -/
def showLoop : List Database → Nat → Bool × List BorrowedEntry
  | _, 0 => (false, [])
  | [], _ + 1 => (false, [])
  | b :: rest, n + 1 =>
    if b.borrowed = ['t', 'r', 'u', 'e'] then
      (true, { isbn := b.isbn, nameBook := b.nameBook, authors := b.authors, date := b.date } ::
        (showLoop rest n).2)
    else showLoop rest n

/-- What `showBorrowedBooks` prints: the blocks, and whether the final message
"No books are currently borrowed." appears. -/
structure ShowResult where
  entries : List BorrowedEntry
  noneBorrowed : Bool
deriving DecidableEq, Repr

/-- The function `showBorrowedBooks`. -/
def showBorrowedBooks (database : List Database) (currentSize : Nat) : ShowResult :=
  { entries := (showLoop database currentSize).2,
    noneBorrowed := !(showLoop database currentSize).1 }

/-! ## The ISBN prompt of addBook -/

/-- The loop `while ((ch = getchar()) != '\n' && ch != EOF);`: the rest of the input
after the current line has been discarded. -/
def discardLine (stdin : List Char) : List Char :=
  (stdin.dropWhile (fun c => c ≠ '\n')).drop 1

/-- The ISBN prompt loop of `addBook` (source lines 196-218) on the standard input that
is left: `fgets(newBook->isbn, 15, stdin)`, the newline cut off, then the test of
`strlen`.  Returns the ISBN left in the slot, the input that remains and the entries
that were rejected, in order.  At the end of the input `fgets` stores nothing and
the loop has no exit: there is no result. -/
def readISBN : Nat → List Char → Option (List Char × List Char × List (List Char))
  | 0, _ => none
  | fuel + 1, stdin =>
    match stdin with
    | [] => none
    | c :: cs =>
      if (stripNewline (fgets 15 (c :: cs)).1).length = 13 then
        some (stripNewline (fgets 15 (c :: cs)).1, (fgets 15 (c :: cs)).2, [])
      else if (stripNewline (fgets 15 (c :: cs)).1).length < 13 then
        (readISBN fuel (fgets 15 (c :: cs)).2).map
          (fun r => (r.1, r.2.1, stripNewline (fgets 15 (c :: cs)).1 :: r.2.2))
      else
        (readISBN fuel (discardLine (fgets 15 (c :: cs)).2)).map
          (fun r => (r.1, r.2.1, stripNewline (fgets 15 (c :: cs)).1 :: r.2.2))

/-- The start of `addBook` on the standard input: `getchar()` takes one character (the
newline the menu choice left behind), then the ISBN prompt loop runs.  Every pass of
the loop reads at least one character, so the length of the input is enough fuel. -/
def addBookISBN (stdin : List Char) : Option (List Char × List Char × List (List Char)) :=
  readISBN (stdin.drop 1).length (stdin.drop 1)

/-! ## Capacity of the array -/

/-- The capacity bookkeeping around `main`: the record count, the capacity `maxSize`
that `main` keeps and passes to `addBook`, and `allocated`, the number of slots of
the block that `database` points to (what the last `malloc` or `realloc` was given). -/
structure Capacity where
  currentSize : Nat
  maxSize : Nat
  allocated : Nat
deriving DecidableEq, Repr

/-- After the start of `main`: `loadDatabase` has allocated the slots its local `maxSize`
counts, and `main` has set its own `maxSize` to 50. -/
def capacityAfterLoad (file : List Char) : Capacity :=
  { currentSize := (loadDatabase file).currentSize, maxSize := 50,
    allocated := (loadDatabase file).maxSize }

/-- One `addBook` from the main loop: when `*currentSize >= *maxSize` the capacity grows
by 10 and `realloc` gives the block that many slots; otherwise the block is left as
it is.  The new record is written at the old `*currentSize`. -/
def capacityAfterAdd (c : Capacity) : Capacity :=
  if c.currentSize ≥ c.maxSize then
    { currentSize := c.currentSize + 1, maxSize := c.maxSize + 10,
      allocated := c.maxSize + 10 }
  else
    { currentSize := c.currentSize + 1, maxSize := c.maxSize, allocated := c.allocated }

/-- The capacity bookkeeping after `n` calls of `addBook`. -/
def capacityAfterAdds : Nat → Capacity → Capacity
  | 0, c => c
  | n + 1, c => capacityAfterAdds n (capacityAfterAdd c)

/-! ## The matching loop of findBookByTitle -/

/-- The C function `tolower` in the C locale: the letters `A` to `Z` (codes 65 to 90) are
moved to `a` to `z`, every other character is left as it is. -/
def tolower (c : Char) : Char :=
  if 65 ≤ c.toNat ∧ c.toNat ≤ 90 then Char.ofNat (c.toNat + 32) else c

/-- The function `toLowerCase`: `tolower` on every character except newline and carriage
return. -/
def toLowerCase (str : List Char) : List Char :=
  str.map (fun c => if c ≠ '\n' ∧ c ≠ '\r' then tolower c else c)

/-- The call `strcpy(dst, src)` into an array of `size` bytes: the text arrives when it
fits together with its terminator; otherwise the call writes past the array and
the behaviour of the program is undefined (`none`). -/
def strcpy (size : Nat) (src : List Char) : Option (List Char) :=
  if src.length < size then some src else none

/-- The test `strstr(haystack, needle) != NULL`: the needle starts at some position of
the haystack (an empty needle is found in every text). -/
def strstr : List Char → List Char → Bool
  | [], needle => needle.isEmpty
  | c :: cs, needle => needle.isPrefixOf (c :: cs) || strstr cs needle

/-- What the matching loop of `findBookByTitle` leaves behind: the lines printed (number,
title, ISBN) and the entries `foundIndexes[0 .. foundCount)`. -/
structure TitleMatches where
  listing : List (Nat × List Char × List Char)
  foundIndexes : List Nat
deriving DecidableEq, Repr

/-- The loop `for (i = 0; i < currentSize; i++)` of `findBookByTitle` (source lines
520-531), at index `i` with the matches found so far: the title is copied into
`char lowerName[50]` and lowered; on a match the line is printed with the number
`foundCount + 1` and `i` is stored in `int foundIndexes[100]`.  A copy or a store
that does not fit its array is undefined behaviour (`none`). -/
def titleLoop (lowerTitle : List Char) :
    List Database → Nat → Nat → TitleMatches → Option TitleMatches
  | _, 0, _, acc => some acc
  | [], _ + 1, _, acc => some acc
  | b :: rest, n + 1, i, acc =>
    match strcpy 50 b.nameBook with
    | none => none
    | some lowerName =>
      if strstr (toLowerCase lowerName) lowerTitle then
        if acc.foundIndexes.length < 100 then
          titleLoop lowerTitle rest n (i + 1)
            { listing := acc.listing ++ [(acc.foundIndexes.length + 1, b.nameBook, b.isbn)],
              foundIndexes := acc.foundIndexes ++ [i] }
        else none
      else titleLoop lowerTitle rest n (i + 1) acc

/-- The matching part of `findBookByTitle` (source lines 513-531): the search text is
copied into `char lowerTitle[50]` and lowered, then the loop runs. -/
def titleMatches (database : List Database) (currentSize : Nat) (title : List Char) :
    Option TitleMatches :=
  match strcpy 50 title with
  | none => none
  | some lowerTitle =>
    titleLoop (toLowerCase lowerTitle) database currentSize 0 { listing := [], foundIndexes := [] }

/-! ## Specification-side definitions -/

/-- The text `DD-MM-YYYY` of a date, digit by digit: two digits of the day, two of
the month and four of the year, zero-padded and separated by `-`. -/
def ddmmyyyy (day month year : Nat) : List Char :=
  [digit (day / 10), digit (day % 10), '-', digit (month / 10), digit (month % 10), '-',
   digit (year / 1000), digit (year / 100 % 10), digit (year / 10 % 10), digit (year % 10)]

/-- A well-formed date string: ten characters, digits except for `-` in the third
and sixth place. -/
def wellFormedDate : List Char → Bool
  | [d1, d2, s1, m1, m2, s2, y1, y2, y3, y4] =>
    d1.isDigit && d2.isDigit && (s1 = '-') && m1.isDigit && m2.isDigit && (s2 = '-') &&
      y1.isDigit && y2.isDigit && y3.isDigit && y4.isDigit
  | _ => false

/-- Sample record: not borrowed. -/
def sampleA : Database :=
  { isbn := "9780000000001".toList, nameBook := "Clean Code".toList,
    authors := "Robert Martin".toList, year := 2008, genre := "Software".toList,
    date := "-".toList, borrowed := "false".toList }

/-- Sample record: borrowed. -/
def sampleB : Database :=
  { isbn := "9780000000002".toList, nameBook := "Refactoring".toList,
    authors := "Martin Fowler".toList, year := 1999, genre := "Software".toList,
    date := "05-03-2024".toList, borrowed := "true".toList }

/-- Sample record: not borrowed. -/
def sampleC : Database :=
  { isbn := "9780000000003".toList, nameBook := "Dune".toList,
    authors := "Frank Herbert".toList, year := 1965, genre := "Science fiction".toList,
    date := "-".toList, borrowed := "false".toList }

/-- Sample local time: 5 March 2024. -/
def sampleTm : Tm := { tm_mday := 5, tm_mon := 2, tm_year := 124 }

/-- The borrow-state pair of a record agrees: `borrowed` is `"false"` exactly when `date`
is `"-"`, and `borrowed` is `"true"` exactly when `date` is a well-formed date. -/
def pairConsistent (b : Database) : Prop :=
  (b.borrowed = ['f', 'a', 'l', 's', 'e'] ↔ b.date = ['-']) ∧
  (b.borrowed = ['t', 'r', 'u', 'e'] ↔ wellFormedDate b.date = true)

instance : DecidablePred pairConsistent := fun b => by
  unfold pairConsistent
  infer_instance

/-- A valid record in the sense of the data model: ISBN of 13 digits, title of at
most 50 characters, authors of at most 200, genre of at most 100, a year that fits
an `int`, `borrowed` one of `"true"` and `"false"`, `date` either `"-"` or a well-formed
date, and no `|` or newline in any text field. -/
def validRecord (r : Database) : Bool :=
  (r.isbn.length == 13 && r.isbn.all Char.isDigit) &&
  decide (r.nameBook.length ≤ 50) && decide (r.authors.length ≤ 200) &&
  decide (r.genre.length ≤ 100) &&
  decide (-2147483648 ≤ r.year ∧ r.year ≤ 2147483647) &&
  (r.borrowed == ['t', 'r', 'u', 'e'] || r.borrowed == ['f', 'a', 'l', 's', 'e']) &&
  (r.date == ['-'] || wellFormedDate r.date) &&
  (r.isbn ++ r.nameBook ++ r.authors ++ r.genre ++ r.borrowed ++ r.date).all
    (fun c => c != '|' && c != '\n')

/-- Input of the end-to-end scenario with the authors line left empty. -/
def duneNoAuthors : BookInput :=
  { isbn := "1234567890123".toList, nameBook := "Dune".toList, authors := [],
    year := 1965, genre := "Science fiction".toList }

/-- Input of the end-to-end scenario with authors and genre at their full lengths
(200 and 100 characters). -/
def duneLongFields : BookInput :=
  { isbn := "1234567890123".toList, nameBook := "Dune".toList,
    authors := List.replicate 200 'a', year := 1965, genre := List.replicate 100 'g' }

/-- State of `main` after loading a file that holds the three sample records. -/
def sampleMain : MainState := mainLoad (saveDatabase [sampleA, sampleB, sampleC] 3)

/-- Splitting a line on `|`: the fields between the delimiters, empty ones included (a
line without a delimiter is one field). -/
def splitBar : List Char → List (List Char)
  | [] => [[]]
  | c :: cs =>
    if c = '|' then [] :: splitBar cs
    else
      match splitBar cs with
      | [] => [[c]]
      | f :: fs => (c :: f) :: fs

/-- The fields of a line that are not empty, in order. -/
def tokens (line : List Char) : List (List Char) :=
  (splitBar line).filter (fun f => !f.isEmpty)

/-- The diagnostic that names the field at position `k` in the order isbn, title,
authors, year, genre, borrowed, date. -/
def fieldError : Nat → LoadError
  | 0 => .missingISBN
  | 1 => .missingName
  | 2 => .missingAuthors
  | 3 => .missingYear
  | 4 => .missingGenre
  | 5 => .missingBorrowed
  | _ => .missingDate

/-- Decoding a list of fields: the first seven, in order, each text cut to what its
array holds and the year converted by `atoi`; with fewer than seven the error names
the first missing one. -/
def parseFields : List (List Char) → Except LoadError Database
  | t1 :: t2 :: t3 :: t4 :: t5 :: t6 :: t7 :: _ =>
    .ok { isbn := t1.take 14, nameBook := t2.take 50, authors := t3.take 200,
          year := atoi t4, genre := t5.take 100, borrowed := t6.take 5,
          date := t7.take 10 }
  | ts => .error (fieldError ts.length)

/-- The reading loop started in state `st` with the length of the text as fuel. -/
def loadFrom (file : List Char) (st : LoadState) : LoadState :=
  loadLoop file.length file st

/-- The text of a file made of the given lines, each followed by a newline. -/
def fileOfLines : List (List Char) → List Char
  | [] => []
  | l :: ls => l ++ '\n' :: fileOfLines ls

/-- The record a line decodes to, if it does. -/
def decodeLine (l : List Char) : Option Database :=
  match parseLine (stripNewline l) with
  | .ok r => some r
  | .error _ => none

/-- A well-formed record line: no newline inside, at most 255 characters, and it
decodes to a record. -/
def wellFormedLine (l : List Char) : Prop :=
  '\n' ∉ l ∧ l.length ≤ 255 ∧ (decodeLine l).isSome = true

instance : DecidablePred wellFormedLine := fun l => by
  unfold wellFormedLine
  infer_instance

/-- The line of the first sample record. -/
def sampleLineA : List Char :=
  "9780000000001|Clean Code|Robert Martin|2008|Software|false|-".toList

/-- The line of the third sample record. -/
def sampleLineC : List Char :=
  "9780000000003|Dune|Frank Herbert|1965|Science fiction|false|-".toList

/-- A line that holds five fields only. -/
def sampleShortLine : List Char :=
  "9780000000002|Refactoring|Martin Fowler|1999|Software".toList

/-- A text that can stand in a line as one field: not empty and without delimiter,
newline or NUL. -/
def plainField (f : List Char) : Prop :=
  f ≠ [] ∧ ∀ c ∈ f, c ≠ '|' ∧ c ≠ '\n' ∧ c ≠ '\x00'

instance : DecidablePred plainField := fun f => by
  unfold plainField
  infer_instance

/-- The line `saveDatabase` writes for a record, without its newline. -/
def recordLine (b : Database) : List Char :=
  b.isbn ++ '|' :: (b.nameBook ++ '|' :: (b.authors ++ '|' :: (printInt b.year ++ '|' ::
    (b.genre ++ '|' :: (b.borrowed ++ '|' :: b.date)))))

/-- A record that `loadDatabase` can read back: every text field is a plain field that
fits its array, and the written line fits one read of 255 characters. -/
def compactRecord (b : Database) : Prop :=
  plainField b.isbn ∧ plainField b.nameBook ∧ plainField b.authors ∧ plainField b.genre ∧
  plainField b.borrowed ∧ plainField b.date ∧
  b.isbn.length ≤ 14 ∧ b.nameBook.length ≤ 50 ∧ b.authors.length ≤ 200 ∧
  b.genre.length ≤ 100 ∧ b.borrowed.length ≤ 5 ∧ b.date.length ≤ 10 ∧
  (recordLine b).length ≤ 255

instance : DecidablePred compactRecord := fun b => by
  unfold compactRecord
  infer_instance

/-- What `showBorrowedBooks` prints of a record. -/
def borrowedEntry (b : Database) : BorrowedEntry :=
  { isbn := b.isbn, nameBook := b.nameBook, authors := b.authors, date := b.date }

/-- The line of the storage format for a record: the seven fields in the order isbn,
title, authors, year, genre, borrowed, borrow date, joined by `|`, the year as its
decimal text, followed by one newline. -/
def storageLine (b : Database) : List Char :=
  List.intercalate ['|']
    [b.isbn, b.nameBook, b.authors, (toString b.year).toList, b.genre, b.borrowed, b.date] ++
    ['\n']

/-- A well-formed integer text: an optional sign followed by one or more decimal digits
and nothing else. -/
def wellFormedInt : List Char → Bool
  | '-' :: ds => !ds.isEmpty && ds.all Char.isDigit
  | '+' :: ds => !ds.isEmpty && ds.all Char.isDigit
  | ds => !ds.isEmpty && ds.all Char.isDigit

/-- The number a run of decimal digits denotes. -/
def decimalValue (ds : List Char) : Nat :=
  ds.foldl (fun acc c => 10 * acc + (c.toNat - 48)) 0

/-- The integer a well-formed integer text denotes. -/
def intValue : List Char → Int
  | '-' :: ds => -(decimalValue ds : Int)
  | '+' :: ds => (decimalValue ds : Int)
  | ds => (decimalValue ds : Int)

/-- The text starts, after leading white space, with a digit or with a sign followed by a
digit. -/
def startsWithNumber (s : List Char) : Bool :=
  match s.dropWhile isspace with
  | '-' :: c :: _ => c.isDigit
  | '+' :: c :: _ => c.isDigit
  | c :: _ => c.isDigit
  | [] => false

/-- The value fits the C type `int` (32 bits): between -2147483648 and 2147483647. -/
def fitsInt (v : Int) : Prop := -2147483648 ≤ v ∧ v ≤ 2147483647

instance : DecidablePred fitsInt := fun v => by
  unfold fitsInt
  infer_instance

/-- A line with seven fields whose year field is `12abc`. -/
def sampleLineYear : List Char :=
  "1234567890123|Dune|Frank Herbert|12abc|Novel|false|-".toList

/-- Input of `addBook` whose ISBN line is thirteen letters. -/
def lettersInput : BookInput :=
  { isbn := "abcdefghijklm".toList, nameBook := "Dune".toList,
    authors := "Frank Herbert".toList, year := 1965, genre := "Novel".toList }

/-- The title of the record contains the search text as a substring, both lowered
character by character. -/
def titleContains (title : List Char) (b : Database) : Prop :=
  title.map Char.toLower <:+: b.nameBook.map Char.toLower

instance (title : List Char) : DecidablePred (titleContains title) := fun b => by
  unfold titleContains
  infer_instance

/-- The matches of a title search by the specification: the records of the store whose
title contains the search text, each with its index in the store, in store order,
counting the index from `i`. -/
def titleMatchesSpec (title : List Char) (records : List Database) (i : Nat) :
    List (Nat × Database) :=
  (records.enumFrom i).filter (fun p => decide (titleContains title p.2))

/-- A store of two records with the titles `Clean Code` and `Refactoring`. -/
def twoTitles : List Database := [sampleA, sampleB]

/-- A record whose title has 50 characters. -/
def longTitleBook : Database := { sampleA with nameBook := List.replicate 50 'a' }

/-! ## Theorems -/

/-! ### Decimal printing and the date format -/

theorem decimalDigits_fuel (f : Nat) : ∀ (g n : Nat), n < f → n < g →
    decimalDigits f n = decimalDigits g n := by
  induction f with
  | zero => intro g n h; omega
  | succ f ih =>
    intro g n hf hg
    cases g with
    | zero => omega
    | succ g =>
      unfold decimalDigits
      by_cases h : n < 10
      · simp [h]
      · simp only [h, if_false]
        rw [ih g (n / 10) (by omega) (by omega)]

theorem printNat_lt (n : Nat) (h : n < 10) : printNat n = [digit n] := by
  simp [printNat, decimalDigits, h]

theorem printNat_ge (n : Nat) (h : 10 ≤ n) :
    printNat n = printNat (n / 10) ++ [digit (n % 10)] := by
  have h1 : ¬ n < 10 := by omega
  rw [printNat, decimalDigits]
  simp only [h1, if_false]
  rw [decimalDigits_fuel n (n / 10 + 1) (n / 10) (by omega) (by omega)]
  rfl

theorem padZero_two (d : Nat) (h : d < 100) : padZero 2 d = [digit (d / 10), digit (d % 10)] := by
  by_cases h1 : d < 10
  · have e1 : d / 10 = 0 := by omega
    have e2 : d % 10 = d := by omega
    rw [padZero, printNat_lt d h1, e1, e2]
    rfl
  · have e1 : d / 10 < 10 := by omega
    rw [padZero, printNat_ge d (by omega), printNat_lt _ e1]
    rfl

theorem padZero_four (y : Nat) (h : y < 10000) :
    padZero 4 y = [digit (y / 1000), digit (y / 100 % 10), digit (y / 10 % 10), digit (y % 10)] := by
  by_cases h1 : y < 10
  · have e1 : y / 1000 = 0 := by omega
    have e2 : y / 100 % 10 = 0 := by omega
    have e3 : y / 10 % 10 = 0 := by omega
    have e4 : y % 10 = y := by omega
    rw [padZero, printNat_lt y h1, e1, e2, e3, e4]
    rfl
  · by_cases h2 : y < 100
    · have e1 : y / 1000 = 0 := by omega
      have e2 : y / 100 % 10 = 0 := by omega
      have e3 : y / 10 % 10 = y / 10 := by omega
      rw [padZero, printNat_ge y (by omega), printNat_lt (y / 10) (by omega), e1, e2, e3]
      rfl
    · by_cases h3 : y < 1000
      · have e1 : y / 1000 = 0 := by omega
        have e2 : y / 100 % 10 = y / 10 / 10 := by omega
        rw [padZero, printNat_ge y (by omega), printNat_ge (y / 10) (by omega),
          printNat_lt (y / 10 / 10) (by omega), e1, e2]
        rfl
      · have e1 : y / 1000 = y / 10 / 10 / 10 := by omega
        have e2 : y / 100 % 10 = y / 10 / 10 % 10 := by omega
        rw [padZero, printNat_ge y (by omega), printNat_ge (y / 10) (by omega),
          printNat_ge (y / 10 / 10) (by omega), printNat_lt (y / 10 / 10 / 10) (by omega),
          e1, e2]
        rfl

theorem formatDate_eq (tm : Tm) (hd : tm.tm_mday < 100) (hm : tm.tm_mon + 1 < 100)
    (hy : tm.tm_year + 1900 < 10000) :
    formatDate tm = ddmmyyyy tm.tm_mday (tm.tm_mon + 1) (tm.tm_year + 1900) := by
  rw [formatDate, padZero_two _ hd, padZero_two _ hm, padZero_four _ hy]
  rfl

theorem digit_isDigit : ∀ k, k < 10 → (digit k).isDigit = true := by decide

theorem wellFormedDate_ddmmyyyy (day month year : Nat) (hd : day < 100) (hm : month < 100)
    (hy : year < 10000) : wellFormedDate (ddmmyyyy day month year) = true := by
  have h1 : day / 10 < 10 := by omega
  have h2 : month / 10 < 10 := by omega
  have h3 : year / 1000 < 10 := by omega
  simp [wellFormedDate, ddmmyyyy, digit_isDigit, Nat.mod_lt, h1, h2, h3]

/-! ### The shift loop of deleteBook -/

theorem shiftLoop_length (count : Nat) : ∀ (database : List Database) (i : Nat),
    (shiftLoop database i count).length = database.length := by
  induction count with
  | zero => intro database i; rfl
  | succ k ih =>
    intro database i
    unfold shiftLoop
    cases h : database[i + 1]? with
    | none => rfl
    | some b => simp [ih]

theorem shiftLoop_getElem? (count : Nat) : ∀ (database : List Database) (i j : Nat),
    i + count < database.length →
    (shiftLoop database i count)[j]? =
      if i ≤ j ∧ j < i + count then database[j + 1]? else database[j]? := by
  induction count with
  | zero =>
    intro database i j _
    have : ¬ (i ≤ j ∧ j < i) := by omega
    simp [shiftLoop, this]
  | succ k ih =>
    intro database i j hlen
    unfold shiftLoop
    have hi : i + 1 < database.length := by omega
    rw [List.getElem?_eq_getElem hi]
    simp only
    rw [ih _ _ _ (by simpa using (by omega : i + 1 + k < database.length))]
    simp only [List.getElem?_set]
    by_cases h1 : i = j
    · subst h1
      have hA : ¬ (i + 1 ≤ i ∧ i < i + 1 + k) := by omega
      have hB : (i ≤ i ∧ i < i + (k + 1)) := by omega
      have hC : i < database.length := by omega
      simp [hA, hB, hC, List.getElem?_eq_getElem hi]
    · by_cases h2 : i + 1 ≤ j ∧ j < i + 1 + k
      · have hB : (i ≤ j ∧ j < i + (k + 1)) := by omega
        have h3 : i ≠ j + 1 := by omega
        simp [h2, hB, h3]
      · have hB : ¬ (i ≤ j ∧ j < i + (k + 1)) := by omega
        simp [h2, hB, h1]

theorem shiftLoop_take (database : List Database) (currentSize i : Nat)
    (hi : i < currentSize) (hcap : currentSize ≤ database.length) :
    (shiftLoop database i (currentSize - 1 - i)).take (currentSize - 1) =
      (database.take currentSize).eraseIdx i := by
  apply List.ext_getElem?
  intro j
  rw [List.getElem?_take, List.getElem?_eraseIdx, shiftLoop_getElem? _ _ _ _ (by omega)]
  simp only [List.getElem?_take]
  by_cases hj : j < currentSize - 1
  · by_cases hji : j < i
    · have h1 : ¬ (i ≤ j ∧ j < i + (currentSize - 1 - i)) := by omega
      have h2 : j < currentSize := by omega
      simp [hj, hji, h1, h2]
    · have h1 : (i ≤ j ∧ j < i + (currentSize - 1 - i)) := by omega
      have h2 : j + 1 < currentSize := by omega
      simp [hj, hji, h1, h2]
  · by_cases hji : j < i
    · omega
    · have h2 : ¬ (j + 1 < currentSize) := by omega
      simp [hj, hji, h2]

/-! ### deleteBook -/

/-- C2. `deleteBook` on a store of `currentSize` records held in an array with at least
that many slots: for an index in `[0, currentSize)` the count becomes `currentSize - 1`
and the records are the original ones with the one at `index` erased (slots before
`index` keep their record, the slots from `index` on receive the record of the next
slot); for an index outside the range the message is the invalid-index one and array,
count and file are unchanged. -/
theorem deleteBook_removes_index (database : List Database) (currentSize : Nat) (index : Int)
    (file : List Char) (hcap : currentSize ≤ database.length) :
    (0 ≤ index ∧ index < (currentSize : Int) →
      (deleteBook database currentSize index file).message = DeleteMsg.deleted ∧
      (deleteBook database currentSize index file).currentSize = currentSize - 1 ∧
      ((deleteBook database currentSize index file).database.take
        (deleteBook database currentSize index file).currentSize).length = currentSize - 1 ∧
      (deleteBook database currentSize index file).database.take
        (deleteBook database currentSize index file).currentSize =
          (database.take currentSize).eraseIdx index.toNat ∧
      (∀ j, j < index.toNat →
        (deleteBook database currentSize index file).database[j]? = database[j]?) ∧
      (∀ j, index.toNat ≤ j → j < currentSize - 1 →
        (deleteBook database currentSize index file).database[j]? = database[j + 1]?)) ∧
    (index < 0 ∨ (currentSize : Int) ≤ index →
      (deleteBook database currentSize index file).message = DeleteMsg.invalidIndex ∧
      (deleteBook database currentSize index file).database = database ∧
      (deleteBook database currentSize index file).currentSize = currentSize ∧
      (deleteBook database currentSize index file).file = file) := by
  constructor
  · rintro ⟨h0, h1⟩
    have hc : ¬ (index < 0 ∨ index ≥ (currentSize : Int)) := by omega
    have hi : index.toNat < currentSize := by omega
    simp only [deleteBook, hc, if_false]
    refine ⟨trivial, trivial, ?_, shiftLoop_take database currentSize _ hi hcap, ?_, ?_⟩
    · rw [List.length_take, shiftLoop_length]; omega
    · intro j hj
      rw [shiftLoop_getElem? _ _ _ _ (by omega)]
      have : ¬ (index.toNat ≤ j ∧ j < index.toNat + (currentSize - 1 - index.toNat)) := by omega
      rw [if_neg this]
    · intro j hj1 hj2
      rw [shiftLoop_getElem? _ _ _ _ (by omega)]
      have : (index.toNat ≤ j ∧ j < index.toNat + (currentSize - 1 - index.toNat)) := by omega
      rw [if_pos this]
  · intro h
    have hc : (index < 0 ∨ index ≥ (currentSize : Int)) := by omega
    simp [deleteBook, hc]

/-- Deleting index 1 of three sample records leaves the first and third; index 3 is
rejected. -/
theorem deleteBook_removes_index_witness :
    (deleteBook [sampleA, sampleB, sampleC] 3 1 []).database.take
      (deleteBook [sampleA, sampleB, sampleC] 3 1 []).currentSize = [sampleA, sampleC] ∧
    (deleteBook [sampleA, sampleB, sampleC] 3 3 []).database = [sampleA, sampleB, sampleC] :=
  ⟨((deleteBook_removes_index [sampleA, sampleB, sampleC] 3 1 [] (by decide)).1
      ⟨by decide, by decide⟩).2.2.2.1,
   ((deleteBook_removes_index [sampleA, sampleB, sampleC] 3 3 [] (by decide)).2
      (Or.inr (by decide))).2.1⟩

/-! ### borrowBook and returnBook -/

theorem borrowBook_at (isbn : List Char) (tm : Tm) :
    ∀ (database : List Database) (currentSize i : Nat) (b : Database),
    i < currentSize → database[i]? = some b → b.isbn = isbn →
    (∀ j a, j < i → database[j]? = some a → a.isbn ≠ isbn) →
    borrowBook database currentSize isbn tm =
      if b.borrowed = ['f', 'a', 'l', 's', 'e'] then
        (database.set i { b with borrowed := ['t', 'r', 'u', 'e'], date := formatDate tm },
          BorrowMsg.borrowed)
      else (database, BorrowMsg.alreadyBorrowed) := by
  intro database
  induction database with
  | nil => intro currentSize i b _ hb; simp at hb
  | cons a rest ih =>
    intro currentSize i b hi hb hisbn hfirst
    cases currentSize with
    | zero => omega
    | succ n =>
      cases i with
      | zero =>
        simp only [List.getElem?_cons_zero, Option.some.injEq] at hb
        subst hb
        simp only [borrowBook, hisbn, if_true, List.set_cons_zero]
      | succ k =>
        have ha : a.isbn ≠ isbn := hfirst 0 a (by omega) (by simp)
        simp only [List.getElem?_cons_succ] at hb
        have hrec := ih n k b (by omega) hb hisbn
          (fun j c hj hc => hfirst (j + 1) c (by omega) (by simpa using hc))
        simp only [borrowBook, ha, if_false, hrec]
        split <;> simp

theorem returnBook_at (isbn : List Char) :
    ∀ (database : List Database) (currentSize i : Nat) (b : Database),
    i < currentSize → database[i]? = some b → b.isbn = isbn →
    (∀ j a, j < i → database[j]? = some a → a.isbn ≠ isbn) →
    returnBook database currentSize isbn =
      if b.borrowed = ['t', 'r', 'u', 'e'] then
        (database.set i { b with borrowed := ['f', 'a', 'l', 's', 'e'], date := ['-'] },
          ReturnMsg.returned)
      else (database, ReturnMsg.notBorrowed) := by
  intro database
  induction database with
  | nil => intro currentSize i b _ hb; simp at hb
  | cons a rest ih =>
    intro currentSize i b hi hb hisbn hfirst
    cases currentSize with
    | zero => omega
    | succ n =>
      cases i with
      | zero =>
        simp only [List.getElem?_cons_zero, Option.some.injEq] at hb
        subst hb
        simp only [returnBook, hisbn, if_true, List.set_cons_zero]
      | succ k =>
        have ha : a.isbn ≠ isbn := hfirst 0 a (by omega) (by simp)
        simp only [List.getElem?_cons_succ] at hb
        have hrec := ih n k b (by omega) hb hisbn
          (fun j c hj hc => hfirst (j + 1) c (by omega) (by simpa using hc))
        simp only [returnBook, ha, if_false, hrec]
        split <;> simp
/-- C3. `borrowBook` when the first record with the given ISBN (at index `i`) has
`borrowed == "false"` and the local time is a calendar date (day 1..31, month
1..12, year at most 9999): the message is the success one and the record at `i`
is the old one with `borrowed` set to `"true"` and `date` set to the two digits of
the day, `-`, the two digits of the month, `-`, the four digits of the year; a
second `borrowBook` with the same ISBN (at any time `tm2`) on that result reports
"already borrowed" and returns the array unchanged. -/
theorem borrowBook_sets_flag_and_date (database : List Database) (currentSize i : Nat)
    (isbn : List Char) (tm tm2 : Tm) (b : Database)
    (hi : i < currentSize) (hb : database[i]? = some b) (hisbn : b.isbn = isbn)
    (hfirst : ∀ j a, j < i → database[j]? = some a → a.isbn ≠ isbn)
    (hfalse : b.borrowed = ['f', 'a', 'l', 's', 'e'])
    (hday : 1 ≤ tm.tm_mday ∧ tm.tm_mday ≤ 31) (hmon : tm.tm_mon ≤ 11)
    (hyear : tm.tm_year + 1900 ≤ 9999) :
    (borrowBook database currentSize isbn tm).2 = BorrowMsg.borrowed ∧
    (borrowBook database currentSize isbn tm).1[i]? =
      some { b with borrowed := ['t', 'r', 'u', 'e'],
                    date := ddmmyyyy tm.tm_mday (tm.tm_mon + 1) (tm.tm_year + 1900) } ∧
    wellFormedDate (ddmmyyyy tm.tm_mday (tm.tm_mon + 1) (tm.tm_year + 1900)) = true ∧
    borrowBook (borrowBook database currentSize isbn tm).1 currentSize isbn tm2 =
      ((borrowBook database currentSize isbn tm).1, BorrowMsg.alreadyBorrowed) := by
  have hlen : i < database.length := by
    rcases Nat.lt_or_ge i database.length with h | h
    · exact h
    · rw [List.getElem?_eq_none h] at hb; cases hb
  have hfmt := formatDate_eq tm (by omega) (by omega) (by omega)
  have h1 := borrowBook_at isbn tm database currentSize i b hi hb hisbn hfirst
  rw [if_pos hfalse] at h1
  have hnew : ∀ b1 : Database, (database.set i b1)[i]? = some b1 := by
    intro b1
    simp [List.getElem?_set, hlen]
  refine ⟨by rw [h1], by rw [h1, hnew, hfmt], ?_, ?_⟩
  · exact wellFormedDate_ddmmyyyy _ _ _ (by omega) (by omega) (by omega)
  · rw [h1]
    have h2 := borrowBook_at isbn tm2 _ currentSize i
      { b with borrowed := ['t', 'r', 'u', 'e'], date := formatDate tm } hi (hnew _) hisbn
      (fun j a hj ha => hfirst j a hj (by
        rw [List.getElem?_set] at ha
        have : ¬ i = j := by omega
        simpa [this] using ha))
    have hne : ¬ (['t', 'r', 'u', 'e'] : List Char) = ['f', 'a', 'l', 's', 'e'] := by decide
    rw [if_neg hne] at h2
    exact h2

/-- Borrowing the third sample record on 5 March 2024 stamps it `05-03-2024`. -/
theorem borrowBook_sets_flag_and_date_witness :
    (borrowBook [sampleA, sampleB, sampleC] 3 sampleC.isbn sampleTm).1[2]? =
      some { sampleC with borrowed := ['t', 'r', 'u', 'e'],
                          date := ['0', '5', '-', '0', '3', '-', '2', '0', '2', '4'] } :=
  (borrowBook_sets_flag_and_date [sampleA, sampleB, sampleC] 3 2 sampleC.isbn sampleTm
    sampleTm sampleC (by decide) (by decide) rfl
    (fun j a hj ha => by
      interval_cases j <;> simp at ha <;> subst ha <;> decide)
    (by decide) (by decide) (by decide) (by decide)).2.1

/-- C4. `returnBook` on the first record with the given ISBN (at index `i`): when its
`borrowed` is `"true"` the message is the success one and the record at `i` is the
old one with `borrowed` set to `"false"` and `date` set to `"-"`; when its `borrowed` is
anything else the message is "not borrowed" and the array is returned unchanged. -/
theorem returnBook_resets_flag_and_date (database : List Database) (currentSize i : Nat)
    (isbn : List Char) (b : Database)
    (hi : i < currentSize) (hb : database[i]? = some b) (hisbn : b.isbn = isbn)
    (hfirst : ∀ j a, j < i → database[j]? = some a → a.isbn ≠ isbn) :
    (b.borrowed = ['t', 'r', 'u', 'e'] →
      (returnBook database currentSize isbn).2 = ReturnMsg.returned ∧
      (returnBook database currentSize isbn).1[i]? =
        some { b with borrowed := ['f', 'a', 'l', 's', 'e'], date := ['-'] }) ∧
    (b.borrowed ≠ ['t', 'r', 'u', 'e'] →
      returnBook database currentSize isbn = (database, ReturnMsg.notBorrowed)) := by
  have hlen : i < database.length := by
    rcases Nat.lt_or_ge i database.length with h | h
    · exact h
    · rw [List.getElem?_eq_none h] at hb; cases hb
  have h1 := returnBook_at isbn database currentSize i b hi hb hisbn hfirst
  constructor
  · intro ht
    rw [if_pos ht] at h1
    rw [h1]
    exact ⟨rfl, by simp [List.getElem?_set, hlen]⟩
  · intro hf
    rw [if_neg hf] at h1
    exact h1

/-- Returning the borrowed second sample record resets it; returning the first, which
is not borrowed, changes nothing. -/
theorem returnBook_resets_flag_and_date_witness :
    (returnBook [sampleA, sampleB, sampleC] 3 sampleB.isbn).1[1]? =
      some { sampleB with borrowed := ['f', 'a', 'l', 's', 'e'], date := ['-'] } ∧
    returnBook [sampleA, sampleB, sampleC] 3 sampleA.isbn =
      ([sampleA, sampleB, sampleC], ReturnMsg.notBorrowed) :=
  ⟨((returnBook_resets_flag_and_date [sampleA, sampleB, sampleC] 3 1 sampleB.isbn sampleB
      (by decide) (by decide) rfl
      (fun j a hj ha => by
        interval_cases j
        simp at ha
        subst ha
        decide)).1 (by decide)).2,
   (returnBook_resets_flag_and_date [sampleA, sampleB, sampleC] 3 0 sampleA.isbn sampleA
      (by decide) (by decide) rfl (fun j a hj _ => absurd hj (by omega))).2 (by decide)⟩

/-! ### The borrow-state pair invariant -/

theorem borrowBook_forall (P : Database → Prop) (isbn : List Char) (tm : Tm)
    (hP : ∀ b, P b → b.borrowed = ['f', 'a', 'l', 's', 'e'] →
      P { b with borrowed := ['t', 'r', 'u', 'e'], date := formatDate tm }) :
    ∀ (database : List Database) (currentSize : Nat),
    (∀ x ∈ database.take currentSize, P x) →
    ∀ x ∈ (borrowBook database currentSize isbn tm).1.take currentSize, P x := by
  intro database
  induction database with
  | nil =>
    intro currentSize h x hx
    cases currentSize <;> simp [borrowBook] at hx
  | cons a rest ih =>
    intro currentSize h x hx
    cases currentSize with
    | zero => simp at hx
    | succ n =>
      have ha : P a := h a (by simp)
      have hrest : ∀ y ∈ rest.take n, P y := fun y hy => h y (by simp [hy])
      unfold borrowBook at hx
      by_cases h1 : a.isbn = isbn
      · by_cases h2 : a.borrowed = ['f', 'a', 'l', 's', 'e']
        · rw [if_pos h1, if_pos h2] at hx
          simp only [List.take_succ_cons, List.mem_cons] at hx
          rcases hx with hx | hx
          · rw [hx]; exact hP a ha h2
          · exact hrest x hx
        · rw [if_pos h1, if_neg h2] at hx
          simp only [List.take_succ_cons, List.mem_cons] at hx
          rcases hx with hx | hx
          · rw [hx]; exact ha
          · exact hrest x hx
      · rw [if_neg h1] at hx
        simp only [List.take_succ_cons, List.mem_cons] at hx
        rcases hx with hx | hx
        · rw [hx]; exact ha
        · exact ih n hrest x hx

theorem returnBook_forall (P : Database → Prop) (isbn : List Char)
    (hP : ∀ b, P b → b.borrowed = ['t', 'r', 'u', 'e'] →
      P { b with borrowed := ['f', 'a', 'l', 's', 'e'], date := ['-'] }) :
    ∀ (database : List Database) (currentSize : Nat),
    (∀ x ∈ database.take currentSize, P x) →
    ∀ x ∈ (returnBook database currentSize isbn).1.take currentSize, P x := by
  intro database
  induction database with
  | nil =>
    intro currentSize h x hx
    cases currentSize <;> simp [returnBook] at hx
  | cons a rest ih =>
    intro currentSize h x hx
    cases currentSize with
    | zero => simp at hx
    | succ n =>
      have ha : P a := h a (by simp)
      have hrest : ∀ y ∈ rest.take n, P y := fun y hy => h y (by simp [hy])
      unfold returnBook at hx
      by_cases h1 : a.isbn = isbn
      · by_cases h2 : a.borrowed = ['t', 'r', 'u', 'e']
        · rw [if_pos h1, if_pos h2] at hx
          simp only [List.take_succ_cons, List.mem_cons] at hx
          rcases hx with hx | hx
          · rw [hx]; exact hP a ha h2
          · exact hrest x hx
        · rw [if_pos h1, if_neg h2] at hx
          simp only [List.take_succ_cons, List.mem_cons] at hx
          rcases hx with hx | hx
          · rw [hx]; exact ha
          · exact hrest x hx
      · rw [if_neg h1] at hx
        simp only [List.take_succ_cons, List.mem_cons] at hx
        rcases hx with hx | hx
        · rw [hx]; exact ha
        · exact ih n hrest x hx

theorem writeSlot_take (database : List Database) (currentSize : Nat) (b : Database)
    (hcap : currentSize ≤ database.length) :
    (writeSlot database currentSize b).take (currentSize + 1) =
      database.take currentSize ++ [b] := by
  have hl : (database.take currentSize).length = currentSize := by
    rw [List.length_take]; omega
  rw [writeSlot, List.take_append_eq_append_take, hl]
  simp [List.take_take]

theorem deleteBook_records (database : List Database) (currentSize : Nat) (index : Int)
    (file : List Char) (hcap : currentSize ≤ database.length)
    (hidx : 0 ≤ index ∧ index < (currentSize : Int)) :
    (deleteBook database currentSize index file).database.take
      (deleteBook database currentSize index file).currentSize =
        (database.take currentSize).eraseIdx index.toNat := by
  have hc : ¬ (index < 0 ∨ index ≥ (currentSize : Int)) := by omega
  simp only [deleteBook, hc, if_false]
  exact shiftLoop_take database currentSize _ (by omega) hcap

/-- C5. If every record of a store satisfies the borrow-state pairing, so does every
record of the store after `addBook` (any accepted input), after `borrowBook` (any
ISBN, local time a calendar date with year at most 9999), after `returnBook` (any
ISBN) and after `deleteBook` (any index). -/
theorem pair_invariant_preserved (database : List Database) (currentSize : Nat)
    (hcap : currentSize ≤ database.length)
    (hinv : ∀ b ∈ database.take currentSize, pairConsistent b) :
    (∀ (maxSize : Nat) (inp : BookInput),
      ∀ b ∈ (addBook database currentSize maxSize inp).database.take
        (addBook database currentSize maxSize inp).currentSize, pairConsistent b) ∧
    (∀ (isbn : List Char) (tm : Tm), 1 ≤ tm.tm_mday ∧ tm.tm_mday ≤ 31 → tm.tm_mon ≤ 11 →
      tm.tm_year + 1900 ≤ 9999 →
      ∀ b ∈ (borrowBook database currentSize isbn tm).1.take currentSize, pairConsistent b) ∧
    (∀ (isbn : List Char),
      ∀ b ∈ (returnBook database currentSize isbn).1.take currentSize, pairConsistent b) ∧
    (∀ (index : Int) (file : List Char),
      ∀ b ∈ (deleteBook database currentSize index file).database.take
        (deleteBook database currentSize index file).currentSize, pairConsistent b) := by
  refine ⟨?_, ?_, ?_, ?_⟩
  · intro maxSize inp b hb
    simp only [addBook] at hb
    rw [writeSlot_take _ _ _ hcap, List.mem_append, List.mem_singleton] at hb
    rcases hb with hb | hb
    · exact hinv b hb
    · rw [hb]; simp [pairConsistent, newBook, wellFormedDate]
  · intro isbn tm hday hmon hyear
    apply borrowBook_forall pairConsistent isbn tm _ database currentSize hinv
    intro b _ _
    have hfmt := formatDate_eq tm (by omega) (by omega) (by omega)
    have hwf := wellFormedDate_ddmmyyyy tm.tm_mday (tm.tm_mon + 1) (tm.tm_year + 1900)
      (by omega) (by omega) (by omega)
    simp only [pairConsistent, hfmt, hwf]
    simp [ddmmyyyy]
  · intro isbn
    apply returnBook_forall pairConsistent isbn _ database currentSize hinv
    intro b _ _
    simp [pairConsistent, wellFormedDate]
  · intro index file b hb
    by_cases hidx : 0 ≤ index ∧ index < (currentSize : Int)
    · rw [deleteBook_records database currentSize index file hcap hidx] at hb
      exact hinv b (List.mem_of_mem_eraseIdx hb)
    · have hc : (index < 0 ∨ index ≥ (currentSize : Int)) := by omega
      simp only [deleteBook, hc, if_true] at hb
      exact hinv b hb

/-- The three sample records satisfy the pairing, and still do after borrowing the third
on 5 March 2024, after returning the second, and after deleting the first. -/
theorem pair_invariant_preserved_witness :
    (∀ b ∈ [sampleA, sampleB, sampleC].take 3, pairConsistent b) ∧
    (∀ b ∈ (borrowBook [sampleA, sampleB, sampleC] 3 sampleC.isbn sampleTm).1.take 3,
      pairConsistent b) ∧
    (∀ b ∈ (returnBook [sampleA, sampleB, sampleC] 3 sampleB.isbn).1.take 3,
      pairConsistent b) ∧
    (∀ b ∈ (deleteBook [sampleA, sampleB, sampleC] 3 0 []).database.take
      (deleteBook [sampleA, sampleB, sampleC] 3 0 []).currentSize, pairConsistent b) :=
  ⟨by decide,
   (pair_invariant_preserved [sampleA, sampleB, sampleC] 3 (by decide) (by decide)).2.1
     sampleC.isbn sampleTm (by decide) (by decide) (by decide),
   (pair_invariant_preserved [sampleA, sampleB, sampleC] 3 (by decide) (by decide)).2.2.1
     sampleB.isbn,
   (pair_invariant_preserved [sampleA, sampleB, sampleC] 3 (by decide) (by decide)).2.2.2
     0 []⟩

/-! ### Failing inputs of the save/load cycle and of delete from the search menu -/

set_option maxRecDepth 1000000

/-- C1. Two valid records do not survive the round trip.  The record of the end-to-end
scenario with empty authors is written as a line with two adjacent delimiters, which
`strtok` skips as one: only six tokens are found, the line is rejected with the
missing-date diagnostic and nothing is loaded.  The record with authors of 200 and
genre of 100 characters is written as a line longer than the 255 characters one
`fgets` call reads: the line is read in two pieces, both rejected. -/
theorem roundtrip_fails_on_valid_records :
    validRecord (newBook duneNoAuthors) = true ∧
    loadDatabase (saveDatabase [newBook duneNoAuthors] 1) =
      { database := [], maxSize := 10, diagnostics := [LoadError.missingDate] } ∧
    validRecord (newBook duneLongFields) = true ∧
    loadDatabase (saveDatabase [newBook duneLongFields] 1) =
      { database := [], maxSize := 10,
        diagnostics := [LoadError.missingBorrowed, LoadError.missingYear] } :=
  ⟨by decide, by decide, by decide, by decide⟩

/-- C6. Deleting the first of three loaded records through the ISBN search writes the
two remaining records to the file, but the main loop keeps its count of 3 and goes
on with the two remaining records followed by a stale copy of the last one; its next
flush (here after a return of an unknown ISBN) writes those three records. -/
theorem delete_from_search_keeps_stale_count :
    sampleMain.records = [sampleA, sampleB, sampleC] ∧
    (mainFindByISBN sampleMain sampleA.isbn 2 sampleTm).file =
      saveDatabase [sampleB, sampleC] 2 ∧
    (mainFindByISBN sampleMain sampleA.isbn 2 sampleTm).currentSize = 3 ∧
    (mainFindByISBN sampleMain sampleA.isbn 2 sampleTm).records =
      [sampleB, sampleC, sampleC] ∧
    (mainReturn (mainFindByISBN sampleMain sampleA.isbn 2 sampleTm) []).file =
      saveDatabase [sampleB, sampleC, sampleC] 3 :=
  ⟨by decide, by decide, by decide, by decide, by decide⟩

/-- C7. Appending the valid new record with empty authors to a store holding one
sample record and writing it out gives a file from which `loadDatabase` returns one
record, as many as from the file of the store alone, and not the new record.  The
same happens with the valid new record whose authors and genre have their full
lengths of 200 and 100 characters. -/
theorem insert_flush_load_loses_record :
    validRecord sampleA = true ∧ validRecord (newBook duneNoAuthors) = true ∧
    (loadDatabase (saveDatabase [sampleA] 1)).currentSize = 1 ∧
    (addBook [sampleA] 1 50 duneNoAuthors).database = [sampleA, newBook duneNoAuthors] ∧
    (loadDatabase (addBook [sampleA] 1 50 duneNoAuthors).file).currentSize = 1 ∧
    newBook duneNoAuthors ∉ (loadDatabase (addBook [sampleA] 1 50 duneNoAuthors).file).database ∧
    validRecord (newBook duneLongFields) = true ∧
    (addBook [sampleA] 1 50 duneLongFields).database = [sampleA, newBook duneLongFields] ∧
    (loadDatabase (addBook [sampleA] 1 50 duneLongFields).file).currentSize = 1 ∧
    newBook duneLongFields ∉
      (loadDatabase (addBook [sampleA] 1 50 duneLongFields).file).database :=
  ⟨by decide, by decide, by decide, by decide, by decide, by decide, by decide, by decide,
    by decide, by decide⟩

/-- C8. End to end with the authors line left empty: from empty storage, adding
ISBN 1234567890123, title Dune, year 1965 stores the record and writes the line
`1234567890123|Dune||1965|Science fiction|false|-`; loading that file gives no record,
and the ISBN lookup for 1234567890123 finds nothing.  With authors of 200 and genre
of 100 characters the reloaded store is empty as well and the lookup finds nothing. -/
theorem end_to_end_record_not_found :
    (mainAdd (mainLoad []) duneNoAuthors).records = [newBook duneNoAuthors] ∧
    (mainAdd (mainLoad []) duneNoAuthors).file =
      "1234567890123|Dune||1965|Science fiction|false|-\n".toList ∧
    (mainLoad (mainAdd (mainLoad []) duneNoAuthors).file).currentSize = 0 ∧
    (findBookByISBN (mainLoad (mainAdd (mainLoad []) duneNoAuthors).file).database
      (mainLoad (mainAdd (mainLoad []) duneNoAuthors).file).currentSize
      "1234567890123".toList 3 sampleTm (mainAdd (mainLoad []) duneNoAuthors).file).found =
        none ∧
    (mainAdd (mainLoad []) duneLongFields).records = [newBook duneLongFields] ∧
    (mainLoad (mainAdd (mainLoad []) duneLongFields).file).currentSize = 0 ∧
    (findBookByISBN (mainLoad (mainAdd (mainLoad []) duneLongFields).file).database
      (mainLoad (mainAdd (mainLoad []) duneLongFields).file).currentSize
      "1234567890123".toList 3 sampleTm (mainAdd (mainLoad []) duneLongFields).file).found =
        none :=
  ⟨by decide, by decide, by decide, by decide, by decide, by decide, by decide⟩

/-! ### strtok and the fields of a line -/

theorem splitBar_eq (s : List Char) :
    splitBar s = s.takeWhile (fun c => c ≠ '|') ::
      (match s.dropWhile (fun c => c ≠ '|') with
        | [] => []
        | _ :: r => splitBar r) := by
  induction s with
  | nil => rfl
  | cons c cs ih =>
    by_cases h : c = '|'
    · subst h
      simp [splitBar, List.takeWhile, List.dropWhile]
    · rw [splitBar, if_neg h, ih]
      simp [List.takeWhile, List.dropWhile, h]

theorem strtok_tokens (s : List Char) :
    (strtok s = none ∧ tokens s = []) ∨
    (∃ t r, strtok s = some (t, r) ∧ tokens s = t :: tokens r) := by
  induction s with
  | nil => left; exact ⟨rfl, rfl⟩
  | cons c cs ih =>
    by_cases h : c = '|'
    · subst h
      have e1 : strtok ('|' :: cs) = strtok cs := by
        simp [strtok, List.dropWhile]
      have e2 : tokens ('|' :: cs) = tokens cs := by
        simp [tokens, splitBar]
      rw [e1, e2]
      exact ih
    · right
      have e1 : strtok (c :: cs) =
          some ((c :: cs).takeWhile (fun c => c ≠ '|'),
            ((c :: cs).dropWhile (fun c => c ≠ '|')).drop 1) := by
        simp [strtok, List.dropWhile, h]
      refine ⟨_, _, e1, ?_⟩
      rw [tokens, splitBar_eq (c :: cs)]
      have e3 : (c :: cs).takeWhile (fun c => c ≠ '|') =
          c :: cs.takeWhile (fun c => c ≠ '|') := by
        simp [List.takeWhile, h]
      rw [e3]
      cases hd : (c :: cs).dropWhile (fun c => c ≠ '|') with
      | nil => simp [tokens, splitBar]
      | cons d r => simp [tokens]

theorem parseLine_eq_parseFields (line : List Char) :
    parseLine line = parseFields (tokens line) := by
  unfold parseLine
  rcases strtok_tokens line with ⟨h1, e1⟩ | ⟨t1, r1, h1, e1⟩
  · rw [h1, e1]; rfl
  rw [h1, e1]
  rcases strtok_tokens r1 with ⟨h2, e2⟩ | ⟨t2, r2, h2, e2⟩
  · simp only [h2, e2]; rfl
  simp only [h2, e2]
  rcases strtok_tokens r2 with ⟨h3, e3⟩ | ⟨t3, r3, h3, e3⟩
  · simp only [h3, e3]; rfl
  simp only [h3, e3]
  rcases strtok_tokens r3 with ⟨h4, e4⟩ | ⟨t4, r4, h4, e4⟩
  · simp only [h4, e4]; rfl
  simp only [h4, e4]
  rcases strtok_tokens r4 with ⟨h5, e5⟩ | ⟨t5, r5, h5, e5⟩
  · simp only [h5, e5]; rfl
  simp only [h5, e5]
  rcases strtok_tokens r5 with ⟨h6, e6⟩ | ⟨t6, r6, h6, e6⟩
  · simp only [h6, e6]; rfl
  simp only [h6, e6]
  rcases strtok_tokens r6 with ⟨h7, e7⟩ | ⟨t7, r7, h7, e7⟩
  · simp only [h7, e7]; rfl
  simp only [h7, e7]
  rfl

/-! ### Decoding one line -/

/-- C10, as stated, fails on two lines that each split into exactly seven fields.  The
first has an ISBN field of 17 characters: it decodes, but the record holds only the
first 14 characters of that field.  The second has an empty authors field: it does
not decode, and the diagnostic names the date although the empty field is the
third. -/
theorem parseLine_seven_fields_counterexample :
    splitBar "12345678901234567|Dune|Frank Herbert|1965|Novel|false|-".toList =
      ["12345678901234567".toList, "Dune".toList, "Frank Herbert".toList, "1965".toList,
       "Novel".toList, "false".toList, "-".toList] ∧
    parseLine "12345678901234567|Dune|Frank Herbert|1965|Novel|false|-".toList =
      .ok { isbn := "12345678901234".toList, nameBook := "Dune".toList,
            authors := "Frank Herbert".toList, year := 1965, genre := "Novel".toList,
            date := "-".toList, borrowed := "false".toList } ∧
    splitBar "1234567890123|Dune||1965|Novel|false|-".toList =
      ["1234567890123".toList, "Dune".toList, [], "1965".toList, "Novel".toList,
       "false".toList, "-".toList] ∧
    parseLine "1234567890123|Dune||1965|Novel|false|-".toList = .error .missingDate :=
  ⟨by decide, by decide, by decide, by decide⟩

/-- C10, amended.  For a line all of whose `|`-separated fields are non-empty: decoding
fails exactly when the line splits into fewer than seven fields; when it fails the
diagnostic names the first missing field in the order isbn, title, authors, year,
genre, borrowed, date; and a line that splits into seven fields (or more) decodes
to the record that holds the first seven in that order, the texts cut to 14, 50,
200, 100, 5 and 10 characters and the year converted by `atoi`. -/
theorem parseLine_nonempty_fields (line : List Char)
    (hne : ∀ f ∈ splitBar line, f ≠ []) :
    ((∃ e, parseLine line = .error e) ↔ (splitBar line).length < 7) ∧
    (∀ e, parseLine line = .error e → e = fieldError (splitBar line).length) ∧
    (∀ f1 f2 f3 f4 f5 f6 f7 more, splitBar line = f1 :: f2 :: f3 :: f4 :: f5 :: f6 :: f7 :: more →
      parseLine line =
        .ok { isbn := f1.take 14, nameBook := f2.take 50, authors := f3.take 200,
              year := atoi f4, genre := f5.take 100, borrowed := f6.take 5,
              date := f7.take 10 }) := by
  have htok : tokens line = splitBar line := by
    rw [tokens, List.filter_eq_self]
    intro f hf
    have := hne f hf
    cases f with
    | nil => exact absurd rfl this
    | cons a l => rfl
  rw [parseLine_eq_parseFields, htok]
  generalize splitBar line = fs
  rcases fs with _ | ⟨f1, _ | ⟨f2, _ | ⟨f3, _ | ⟨f4, _ | ⟨f5, _ | ⟨f6, _ | ⟨f7, more⟩⟩⟩⟩⟩⟩⟩ <;>
    simp [parseFields, fieldError]
  intros
  subst_vars
  simp

/-- The line of the first sample record has seven non-empty fields and decodes to that
record. -/
theorem parseLine_nonempty_fields_witness :
    parseLine "9780000000001|Clean Code|Robert Martin|2008|Software|false|-".toList =
      .ok sampleA :=
  (parseLine_nonempty_fields
    "9780000000001|Clean Code|Robert Martin|2008|Software|false|-".toList
    (by decide)).2.2 "9780000000001".toList "Clean Code".toList "Robert Martin".toList
      "2008".toList "Software".toList "false".toList "-".toList [] (by decide)

/-! ### The reading loop -/

theorem readChars_snd_length_le (n : Nat) : ∀ (s : List Char),
    (readChars n s).2.length ≤ s.length := by
  induction n with
  | zero => intro s; simp [readChars]
  | succ k ih =>
    intro s
    cases s with
    | nil => simp [readChars]
    | cons c cs =>
      unfold readChars
      by_cases h : c = '\n'
      · simp [h]
      · simp only [h, if_false, List.length_cons]
        exact Nat.le_succ_of_le (ih cs)

theorem fgets_snd_length_lt (c : Char) (cs : List Char) :
    (fgets 256 (c :: cs)).2.length ≤ cs.length := by
  unfold fgets
  show (readChars (254 + 1) (c :: cs)).2.length ≤ cs.length
  unfold readChars
  by_cases h : c = '\n'
  · simp [h]
  · simp only [h, if_false]
    exact readChars_snd_length_le _ _

theorem loadLoop_fuel (f : Nat) : ∀ (g : Nat) (file : List Char) (st : LoadState),
    file.length ≤ f → file.length ≤ g → loadLoop f file st = loadLoop g file st := by
  induction f with
  | zero =>
    intro g file st hf _
    have : file = [] := List.eq_nil_of_length_eq_zero (by omega)
    subst this
    cases g <;> rfl
  | succ f ih =>
    intro g file st hf hg
    cases file with
    | nil => cases g <;> rfl
    | cons c cs =>
      cases g with
      | zero => simp at hg
      | succ g =>
        simp only [loadLoop]
        have h1 := fgets_snd_length_lt c cs
        simp only [List.length_cons] at hf hg
        exact ih g _ _ (by omega) (by omega)

theorem loadFrom_nil (st : LoadState) : loadFrom [] st = st := rfl

theorem loadFrom_cons (c : Char) (cs : List Char) (st : LoadState) :
    loadFrom (c :: cs) st =
      loadFrom (fgets 256 (c :: cs)).2 (loadStep (fgets 256 (c :: cs)).1 st) := by
  have h1 := fgets_snd_length_lt c cs
  simp only [loadFrom, List.length_cons, loadLoop]
  exact loadLoop_fuel _ _ _ _ (by omega) (Nat.le_refl _)

theorem loadDatabase_eq_loadFrom (file : List Char) :
    loadDatabase file = loadFrom file { database := [], maxSize := 10, diagnostics := [] } :=
  rfl

theorem readChars_line_short (n : Nat) : ∀ (l rest : List Char),
    '\n' ∉ l → l.length < n → readChars n (l ++ '\n' :: rest) = (l ++ ['\n'], rest) := by
  induction n with
  | zero => intro l rest _ h; omega
  | succ k ih =>
    intro l rest hl hlen
    cases l with
    | nil => simp [readChars]
    | cons c cs =>
      have hc : c ≠ '\n' := fun h => hl (by simp [h])
      have hcs : '\n' ∉ cs := fun h => hl (by simp [h])
      rw [List.cons_append, readChars, if_neg hc, ih cs rest hcs (by simpa using hlen)]
      rfl

theorem readChars_line_long (n : Nat) : ∀ (l t : List Char),
    '\n' ∉ l → n ≤ l.length → readChars n (l ++ t) = (l.take n, l.drop n ++ t) := by
  induction n with
  | zero => intro l t _ _; simp [readChars]
  | succ k ih =>
    intro l t hl hlen
    cases l with
    | nil => simp at hlen
    | cons c cs =>
      have hc : c ≠ '\n' := fun h => hl (by simp [h])
      have hcs : '\n' ∉ cs := fun h => hl (by simp [h])
      rw [List.cons_append, readChars, if_neg hc, ih cs t hcs (by simpa using hlen)]
      rfl

theorem loadFrom_line (k : Nat) : ∀ (l rest : List Char) (st : LoadState),
    l.length ≤ k → '\n' ∉ l →
    loadFrom (l ++ '\n' :: rest) st = loadFrom rest (loadFrom (l ++ ['\n']) st) := by
  induction k using Nat.strong_induction_on with
  | _ k ih =>
    intro l rest st hk hl
    by_cases hshort : l.length < 255
    · have e1 : fgets 256 (l ++ '\n' :: rest) = (l ++ ['\n'], rest) :=
        readChars_line_short 255 l rest hl hshort
      have e2 : fgets 256 (l ++ ['\n']) = (l ++ ['\n'], []) :=
        readChars_line_short 255 l [] hl hshort
      cases hl1 : l ++ '\n' :: rest with
      | nil => simp at hl1
      | cons c cs =>
        cases hl2 : l ++ ['\n'] with
        | nil => simp at hl2
        | cons d ds =>
          rw [loadFrom_cons, loadFrom_cons, ← hl1, ← hl2, e1, e2]
          rfl
    · have hlong : 255 ≤ l.length := by omega
      have e1 : fgets 256 (l ++ '\n' :: rest) = (l.take 255, l.drop 255 ++ '\n' :: rest) :=
        readChars_line_long 255 l _ hl hlong
      have e2 : fgets 256 (l ++ ['\n']) = (l.take 255, l.drop 255 ++ ['\n']) :=
        readChars_line_long 255 l _ hl hlong
      have hdrop : '\n' ∉ l.drop 255 := fun h => hl (List.mem_of_mem_drop h)
      have hdl : (l.drop 255).length < k := by
        rw [List.length_drop]; omega
      cases hl1 : l ++ '\n' :: rest with
      | nil => simp at hl1
      | cons c cs =>
        cases hl2 : l ++ ['\n'] with
        | nil => simp at hl2
        | cons d ds =>
          rw [loadFrom_cons, loadFrom_cons, ← hl1, ← hl2, e1, e2]
          exact ih _ hdl (l.drop 255) rest _ (Nat.le_refl _) hdrop

theorem loadStep_output (buf : List Char) :
    ∃ d e, ∀ st : LoadState, (loadStep buf st).database = st.database ++ d ∧
      (loadStep buf st).diagnostics = st.diagnostics ++ e := by
  cases h : parseLine (stripNewline buf) with
  | ok book => exact ⟨[book], [], fun st => by simp [loadStep, h]⟩
  | error err => exact ⟨[], [err], fun st => by simp [loadStep, h]⟩

theorem loadLoop_output (fuel : Nat) : ∀ (file : List Char),
    ∃ d e, ∀ st : LoadState, (loadLoop fuel file st).database = st.database ++ d ∧
      (loadLoop fuel file st).diagnostics = st.diagnostics ++ e := by
  induction fuel with
  | zero => intro file; exact ⟨[], [], fun st => by simp [loadLoop]⟩
  | succ k ih =>
    intro file
    cases file with
    | nil => exact ⟨[], [], fun st => by simp [loadLoop]⟩
    | cons c cs =>
      obtain ⟨d0, e0, h0⟩ := loadStep_output (fgets 256 (c :: cs)).1
      obtain ⟨d1, e1, h1⟩ := ih (fgets 256 (c :: cs)).2
      refine ⟨d0 ++ d1, e0 ++ e1, fun st => ?_⟩
      simp only [loadLoop]
      rw [(h1 _).1, (h1 _).2, (h0 st).1, (h0 st).2]
      simp

theorem loadFrom_output (file : List Char) (st : LoadState) :
    (loadFrom file st).database = st.database ++ (loadDatabase file).database ∧
    (loadFrom file st).diagnostics = st.diagnostics ++ (loadDatabase file).diagnostics := by
  obtain ⟨d, e, h⟩ := loadLoop_output file.length file
  have h0 := h { database := [], maxSize := 10, diagnostics := [] }
  simp only [List.nil_append] at h0
  have hs := h st
  simp only [loadFrom, loadDatabase]
  rw [hs.1, hs.2, h0.1, h0.2]
  exact ⟨rfl, rfl⟩

theorem load_lines_cons (l : List Char) (ls : List (List Char)) (hl : '\n' ∉ l) :
    (loadDatabase (fileOfLines (l :: ls))).database =
      (loadDatabase (l ++ ['\n'])).database ++ (loadDatabase (fileOfLines ls)).database ∧
    (loadDatabase (fileOfLines (l :: ls))).diagnostics =
      (loadDatabase (l ++ ['\n'])).diagnostics ++
        (loadDatabase (fileOfLines ls)).diagnostics := by
  have h := loadFrom_line l.length l (fileOfLines ls)
    { database := [], maxSize := 10, diagnostics := [] } (Nat.le_refl _) hl
  have h2 := loadFrom_output (fileOfLines ls)
    (loadFrom (l ++ ['\n']) { database := [], maxSize := 10, diagnostics := [] })
  simp only [fileOfLines, loadDatabase_eq_loadFrom]
  rw [h]
  exact h2

theorem load_lines_append (a b : List (List Char)) (ha : ∀ l ∈ a, '\n' ∉ l) :
    (loadDatabase (fileOfLines (a ++ b))).database =
      (loadDatabase (fileOfLines a)).database ++ (loadDatabase (fileOfLines b)).database ∧
    (loadDatabase (fileOfLines (a ++ b))).diagnostics =
      (loadDatabase (fileOfLines a)).diagnostics ++
        (loadDatabase (fileOfLines b)).diagnostics := by
  induction a with
  | nil => exact ⟨by simp [fileOfLines, loadDatabase, loadLoop], by simp [fileOfLines, loadDatabase, loadLoop]⟩
  | cons l ls ih =>
    have hl : '\n' ∉ l := ha l (by simp)
    have ih1 := ih (fun x hx => ha x (by simp [hx]))
    have h1 := load_lines_cons l (ls ++ b) hl
    have h2 := load_lines_cons l ls hl
    rw [List.cons_append, h1.1, h1.2, h2.1, h2.2, ih1.1, ih1.2]
    simp

theorem loadFrom_ne_nil (file : List Char) (st : LoadState) (h : file ≠ []) :
    loadFrom file st = loadFrom (fgets 256 file).2 (loadStep (fgets 256 file).1 st) := by
  cases file with
  | nil => exact absurd rfl h
  | cons c cs => exact loadFrom_cons c cs st

theorem stripNewline_append_newline (l : List Char) :
    stripNewline (l ++ ['\n']) = stripNewline l := by
  induction l with
  | nil => simp [stripNewline, List.takeWhile]
  | cons c cs ih =>
    simp only [stripNewline] at ih
    simp only [List.cons_append, stripNewline, List.takeWhile]
    split
    · exact congrArg (fun t => c :: t) ih
    · rfl

theorem splitBar_length (s : List Char) : (splitBar s).length = s.count '|' + 1 := by
  induction s with
  | nil => rfl
  | cons c cs ih =>
    by_cases h : c = '|'
    · subst h
      simp [splitBar, ih]
    · have hc : List.count '|' (c :: cs) = List.count '|' cs := by
        rw [List.count_cons_of_ne (fun e => h e.symm)]
      rw [splitBar, if_neg h, hc]
      cases hs : splitBar cs with
      | nil => rw [hs] at ih; simp at ih
      | cons f fs => rw [hs] at ih; simpa using ih

theorem parseFields_short (ts : List (List Char)) (h : ts.length < 7) :
    parseFields ts = .error (fieldError ts.length) := by
  rcases ts with _ | ⟨f1, _ | ⟨f2, _ | ⟨f3, _ | ⟨f4, _ | ⟨f5, _ | ⟨f6, _ | ⟨f7, more⟩⟩⟩⟩⟩⟩⟩ <;>
    first
    | rfl
    | (simp at h; omega)

theorem loadStep_fail (buf : List Char) (st : LoadState) (h : buf.count '|' < 6) :
    (loadStep buf st).database = st.database ∧
    (loadStep buf st).diagnostics.length = st.diagnostics.length + 1 := by
  have h1 : (stripNewline buf).count '|' ≤ buf.count '|' :=
    (List.takeWhile_sublist _).count_le _
  have h2 : (tokens (stripNewline buf)).length ≤ (splitBar (stripNewline buf)).length :=
    List.length_filter_le _ _
  have h3 := splitBar_length (stripNewline buf)
  have h4 := parseFields_short (tokens (stripNewline buf)) (by omega)
  rw [← parseLine_eq_parseFields] at h4
  simp [loadStep, h4]

theorem loadFrom_short_line (k : Nat) : ∀ (l : List Char) (st : LoadState),
    l.length ≤ k → '\n' ∉ l → l.count '|' < 6 →
    (loadFrom (l ++ ['\n']) st).database = st.database ∧
    st.diagnostics.length < (loadFrom (l ++ ['\n']) st).diagnostics.length := by
  induction k using Nat.strong_induction_on with
  | _ k ih =>
    intro l st hk hl hc
    rw [loadFrom_ne_nil _ _ (by simp)]
    by_cases hshort : l.length < 255
    · have e1 : fgets 256 (l ++ ['\n']) = (l ++ ['\n'], []) :=
        readChars_line_short 255 l [] hl hshort
      rw [e1]
      dsimp only
      rw [loadFrom_nil]
      have hcount : (l ++ ['\n']).count '|' < 6 := by
        rw [List.count_append]
        simpa using hc
      have := loadStep_fail (l ++ ['\n']) st hcount
      exact ⟨this.1, by omega⟩
    · have e1 : fgets 256 (l ++ ['\n']) = (l.take 255, l.drop 255 ++ ['\n']) :=
        readChars_line_long 255 l _ hl (by omega)
      rw [e1]
      dsimp only
      have hdrop : '\n' ∉ l.drop 255 := fun h => hl (List.mem_of_mem_drop h)
      have hdl : (l.drop 255).length < k := by
        rw [List.length_drop]; omega
      have hc1 : (l.take 255).count '|' < 6 :=
        Nat.lt_of_le_of_lt ((List.take_sublist _ _).count_le _) hc
      have hc2 : (l.drop 255).count '|' < 6 :=
        Nat.lt_of_le_of_lt ((List.drop_sublist _ _).count_le _) hc
      have hstep := loadStep_fail (l.take 255) st hc1
      have hrec := ih _ hdl (l.drop 255) (loadStep (l.take 255) st) (Nat.le_refl _) hdrop hc2
      exact ⟨by rw [hrec.1, hstep.1], by omega⟩

theorem load_good_line (l : List Char) (r : Database) (hl : '\n' ∉ l)
    (hlen : l.length ≤ 255) (hdec : decodeLine l = some r) :
    (loadDatabase (l ++ ['\n'])).database = [r] := by
  have hp : parseLine (stripNewline l) = .ok r := by
    unfold decodeLine at hdec
    cases h : parseLine (stripNewline l) with
    | ok b => rw [h] at hdec; simp at hdec; rw [hdec]
    | error e => rw [h] at hdec; simp at hdec
  rw [loadDatabase_eq_loadFrom, loadFrom_ne_nil _ _ (by simp)]
  by_cases hshort : l.length < 255
  · have e1 : fgets 256 (l ++ ['\n']) = (l ++ ['\n'], []) :=
      readChars_line_short 255 l [] hl hshort
    rw [e1]
    dsimp only
    rw [loadFrom_nil]
    simp [loadStep, stripNewline_append_newline, hp]
  · have e1 : fgets 256 (l ++ ['\n']) = (l.take 255, l.drop 255 ++ ['\n']) :=
      readChars_line_long 255 l _ hl (by omega)
    have e2 : l.take 255 = l := List.take_of_length_le hlen
    have e3 : l.drop 255 = [] := List.drop_of_length_le hlen
    rw [e1, e2, e3, List.nil_append]
    dsimp only
    rw [loadFrom_ne_nil _ _ (by simp)]
    have e4 : fgets 256 ['\n'] = (['\n'], []) := rfl
    rw [e4]
    dsimp only
    rw [loadFrom_nil]
    have h5 := loadStep_fail ['\n'] (loadStep l { database := [], maxSize := 10, diagnostics := [] })
      (by decide)
    rw [h5.1]
    simp [loadStep, hp]

theorem load_good_lines (ls : List (List Char)) (h : ∀ l ∈ ls, wellFormedLine l) :
    (loadDatabase (fileOfLines ls)).database.map some = ls.map decodeLine := by
  induction ls with
  | nil => rfl
  | cons l ls ih =>
    obtain ⟨hnl, hlen, hdec⟩ := h l (by simp)
    obtain ⟨r, hr⟩ := Option.isSome_iff_exists.mp hdec
    rw [(load_lines_cons l ls hnl).1, load_good_line l r hnl hlen hr, List.map_append,
      ih (fun x hx => h x (by simp [hx]))]
    simp only [List.map_cons, List.map_nil, hr, List.cons_append, List.nil_append]

/-- C9. For a file made of well-formed record lines (no newline inside, at most 255
characters, decodable) `pre` and `post`, each followed by a newline, with one line
that splits into only five fields inserted between them (`pre` or `post` may be
empty): `loadDatabase` returns exactly the records the well-formed lines decode to,
one per line and in file order; these are the records and the count it returns
for the file without the short line; and its diagnostics are those of the lines
before, at least one for the short line, and those of the lines after. -/
theorem load_skips_short_line (pre post : List (List Char)) (short : List Char)
    (hgood : ∀ l ∈ pre ++ post, wellFormedLine l)
    (hnl : '\n' ∉ short) (hfive : (splitBar short).length = 5) :
    (loadDatabase (fileOfLines (pre ++ short :: post))).database.map some =
      (pre ++ post).map decodeLine ∧
    (loadDatabase (fileOfLines (pre ++ short :: post))).database =
      (loadDatabase (fileOfLines (pre ++ post))).database ∧
    (loadDatabase (fileOfLines (pre ++ short :: post))).currentSize =
      (loadDatabase (fileOfLines (pre ++ post))).currentSize ∧
    (loadDatabase (fileOfLines (pre ++ short :: post))).currentSize = (pre ++ post).length ∧
    ∃ ds, ds ≠ [] ∧
      (loadDatabase (fileOfLines (pre ++ short :: post))).diagnostics =
        (loadDatabase (fileOfLines pre)).diagnostics ++ ds ++
          (loadDatabase (fileOfLines post)).diagnostics := by
  have hpre : ∀ l ∈ pre, '\n' ∉ l := fun l hl => (hgood l (by simp [hl])).1
  have hcount : short.count '|' < 6 := by
    have := splitBar_length short
    omega
  have hs := loadFrom_short_line short.length short
    { database := [], maxSize := 10, diagnostics := [] } (Nat.le_refl _) hnl hcount
  rw [← loadDatabase_eq_loadFrom] at hs
  simp only [List.length_nil] at hs
  have h1 := load_lines_append pre (short :: post) hpre
  have h2 := load_lines_cons short post hnl
  have h3 := load_lines_append pre post hpre
  have hdb : (loadDatabase (fileOfLines (pre ++ short :: post))).database =
      (loadDatabase (fileOfLines (pre ++ post))).database := by
    rw [h1.1, h2.1, hs.1, h3.1, List.nil_append]
  have hall := load_good_lines (pre ++ post) hgood
  refine ⟨by rw [hdb, hall], hdb, by simp only [LoadState.currentSize, hdb], ?_, ?_⟩
  · have := congrArg List.length hall
    simp only [List.length_map] at this
    simp only [LoadState.currentSize, hdb, this]
  · refine ⟨(loadDatabase (short ++ ['\n'])).diagnostics, ?_, ?_⟩
    · intro h
      rw [h] at hs
      simp at hs
    · rw [h1.2, h2.2, List.append_assoc]

/-- A file with the lines of the first and third sample records and a five-field line
between them loads as those two records. -/
theorem load_skips_short_line_witness :
    (loadDatabase (fileOfLines ([sampleLineA] ++ sampleShortLine :: [sampleLineC]))).database.map
      some = [some sampleA, some sampleC] :=
  (load_skips_short_line [sampleLineA] [sampleLineC] sampleShortLine (by decide) (by decide)
    (by decide)).1

/-! ### Records that survive the save/load cycle -/

theorem digit_toNat : ∀ k, k < 10 → (digit k).toNat - 48 = k := by decide

theorem digit_not_special : ∀ k, k < 10 →
    digit k ≠ '|' ∧ digit k ≠ '\n' ∧ digit k ≠ '\x00' ∧ digit k ≠ '-' ∧ digit k ≠ '+' ∧
      isspace (digit k) = false := by decide

theorem printNat_digits (n : Nat) : ∀ c ∈ printNat n, ∃ k, k < 10 ∧ c = digit k := by
  induction n using Nat.strong_induction_on with
  | _ n ih =>
    intro c hc
    by_cases h : n < 10
    · rw [printNat_lt n h] at hc
      exact ⟨n, h, by simpa using hc⟩
    · rw [printNat_ge n (by omega), List.mem_append, List.mem_singleton] at hc
      rcases hc with hc | hc
      · exact ih (n / 10) (by omega) c hc
      · exact ⟨n % 10, Nat.mod_lt _ (by omega), hc⟩

theorem printNat_ne_nil (n : Nat) : printNat n ≠ [] := by
  by_cases h : n < 10
  · rw [printNat_lt n h]; simp
  · rw [printNat_ge n (by omega)]; simp

theorem digitsValue_append (a : List Char) (ha : ∀ c ∈ a, c.isDigit = true) :
    ∀ (b : List Char) (acc : Nat),
    digitsValue (a ++ b) acc = digitsValue b (digitsValue a acc) := by
  induction a with
  | nil => intro b acc; rfl
  | cons c cs ih =>
    intro b acc
    have hc : c.isDigit = true := ha c (by simp)
    simp only [List.cons_append, digitsValue, hc, if_true]
    exact ih (fun x hx => ha x (by simp [hx])) b _

theorem digitsValue_printNat (n : Nat) : digitsValue (printNat n) 0 = n := by
  induction n using Nat.strong_induction_on with
  | _ n ih =>
    by_cases h : n < 10
    · rw [printNat_lt n h]
      simp [digitsValue, digit_isDigit n h, digit_toNat n h]
    · have hd : ∀ c ∈ printNat (n / 10), c.isDigit = true := by
        intro c hc
        obtain ⟨k, hk, rfl⟩ := printNat_digits _ c hc
        exact digit_isDigit k hk
      have hm : n % 10 < 10 := Nat.mod_lt _ (by omega)
      rw [printNat_ge n (by omega), digitsValue_append _ hd, ih (n / 10) (by omega)]
      simp only [digitsValue, digit_isDigit _ hm, if_true, digit_toNat _ hm]
      omega

theorem atoi_printNat (n : Nat) : atoi (printNat n) = (n : Int) := by
  have hv := digitsValue_printNat n
  cases hp : printNat n with
  | nil => exact absurd hp (printNat_ne_nil n)
  | cons c cs =>
    obtain ⟨k, hk, hck⟩ := printNat_digits n c (by rw [hp]; simp)
    obtain ⟨-, -, -, h4, h5, h6⟩ := digit_not_special k hk
    rw [← hck] at h4 h5 h6
    rw [hp] at hv
    unfold atoi
    have hdrop : (c :: cs).dropWhile isspace = c :: cs := by
      simp [List.dropWhile, h6]
    rw [hdrop]
    split
    · rename_i heq
      simp only [List.cons.injEq] at heq
      exact absurd heq.1 h4
    · rename_i heq
      simp only [List.cons.injEq] at heq
      exact absurd heq.1 h5
    · rw [hv]

theorem atoi_printInt (y : Int) : atoi (printInt y) = y := by
  unfold printInt
  by_cases h : y < 0
  · rw [if_pos h]
    unfold atoi
    have hdrop : ('-' :: printNat y.natAbs).dropWhile isspace = '-' :: printNat y.natAbs := by
      simp [List.dropWhile, isspace]
    rw [hdrop]
    simp only [digitsValue_printNat]
    omega
  · rw [if_neg h, atoi_printNat]
    omega

theorem printInt_plain (y : Int) : plainField (printInt y) := by
  unfold printInt
  constructor
  · split <;> simp [printNat_ne_nil]
  · intro c hc
    have hnat : ∀ c ∈ printNat y.natAbs, c ≠ '|' ∧ c ≠ '\n' ∧ c ≠ '\x00' := by
      intro c hc
      obtain ⟨k, hk, rfl⟩ := printNat_digits _ c hc
      obtain ⟨h1, h2, h3, -⟩ := digit_not_special k hk
      exact ⟨h1, h2, h3⟩
    split at hc
    · rw [List.mem_cons] at hc
      rcases hc with hc | hc
      · rw [hc]; decide
      · exact hnat c hc
    · exact hnat c hc

theorem splitBar_plain (f : List Char) (hf : ∀ c ∈ f, c ≠ '|') : splitBar f = [f] := by
  induction f with
  | nil => rfl
  | cons c cs ih =>
    have hc : c ≠ '|' := hf c (by simp)
    rw [splitBar, if_neg hc, ih (fun x hx => hf x (by simp [hx]))]

theorem splitBar_append (f rest : List Char) (hf : ∀ c ∈ f, c ≠ '|') :
    splitBar (f ++ '|' :: rest) = f :: splitBar rest := by
  induction f with
  | nil => simp [splitBar]
  | cons c cs ih =>
    have hc : c ≠ '|' := hf c (by simp)
    rw [List.cons_append, splitBar, if_neg hc, ih (fun x hx => hf x (by simp [hx]))]

theorem tokens_recordLine (b : Database) (h1 : plainField b.isbn) (h2 : plainField b.nameBook)
    (h3 : plainField b.authors) (h5 : plainField b.genre) (h6 : plainField b.borrowed)
    (h7 : plainField b.date) :
    tokens (recordLine b) =
      [b.isbn, b.nameBook, b.authors, printInt b.year, b.genre, b.borrowed, b.date] := by
  have h4 := printInt_plain b.year
  have nb : ∀ {f : List Char}, plainField f → ∀ c ∈ f, c ≠ '|' := fun hf c hc => (hf.2 c hc).1
  have ne : ∀ {f : List Char}, plainField f → (!f.isEmpty) = true := by
    intro f hf
    cases f with
    | nil => exact absurd rfl hf.1
    | cons a l => rfl
  rw [tokens, recordLine, splitBar_append _ _ (nb h1), splitBar_append _ _ (nb h2),
    splitBar_append _ _ (nb h3), splitBar_append _ _ (nb h4), splitBar_append _ _ (nb h5),
    splitBar_append _ _ (nb h6), splitBar_plain _ (nb h7)]
  simp [List.filter, ne h1, ne h2, ne h3, ne h4, ne h5, ne h6, ne h7]

theorem recordLine_chars (b : Database) (hb : compactRecord b) :
    ∀ c ∈ recordLine b, c ≠ '\n' ∧ c ≠ '\x00' := by
  obtain ⟨h1, h2, h3, h5, h6, h7, -⟩ := hb
  have h4 := printInt_plain b.year
  intro c hc
  simp only [recordLine, List.mem_append, List.mem_cons] at hc
  have key : ∀ {f : List Char}, plainField f → c ∈ f → c ≠ '\n' ∧ c ≠ '\x00' :=
    fun hf hc => (hf.2 c hc).2
  have bar : c = '|' → c ≠ '\n' ∧ c ≠ '\x00' := by
    intro h; rw [h]; decide
  rcases hc with hc | hc | hc | hc | hc | hc | hc | hc | hc | hc | hc | hc | hc
  · exact key h1 hc
  · exact bar hc
  · exact key h2 hc
  · exact bar hc
  · exact key h3 hc
  · exact bar hc
  · exact key h4 hc
  · exact bar hc
  · exact key h5 hc
  · exact bar hc
  · exact key h6 hc
  · exact bar hc
  · exact key h7 hc

theorem decodeLine_recordLine (b : Database) (hb : compactRecord b) :
    decodeLine (recordLine b) = some b := by
  have hchars := recordLine_chars b hb
  obtain ⟨h1, h2, h3, h5, h6, h7, l1, l2, l3, l5, l6, l7, -⟩ := hb
  have hstrip : stripNewline (recordLine b) = recordLine b := by
    rw [stripNewline, List.takeWhile_eq_self_iff]
    intro c hc
    have := hchars c hc
    simp [this.1, this.2]
  rw [decodeLine, hstrip, parseLine_eq_parseFields, tokens_recordLine b h1 h2 h3 h5 h6 h7]
  simp only [parseFields, atoi_printInt, List.take_of_length_le l1, List.take_of_length_le l2,
    List.take_of_length_le l3, List.take_of_length_le l5, List.take_of_length_le l6,
    List.take_of_length_le l7]

theorem wellFormedLine_recordLine (b : Database) (hb : compactRecord b) :
    wellFormedLine (recordLine b) :=
  ⟨fun h => (recordLine_chars b hb _ h).1 rfl, hb.2.2.2.2.2.2.2.2.2.2.2.2,
    by rw [decodeLine_recordLine b hb]; rfl⟩

theorem formatRecord_eq (b : Database) : formatRecord b = recordLine b ++ ['\n'] := by
  simp [formatRecord, recordLine]

theorem writeRecords_eq_fileOfLines (s : List Database) :
    writeRecords s.length s = fileOfLines (s.map recordLine) := by
  induction s with
  | nil => rfl
  | cons b rest ih =>
    simp only [List.length_cons, writeRecords, List.map_cons, fileOfLines, ih, formatRecord_eq]
    simp

/-- Saving a store of compact records and loading the file gives the store back. -/
theorem load_save_compact (s : List Database) (hs : ∀ b ∈ s, compactRecord b) :
    (loadDatabase (saveDatabase s s.length)).database = s := by
  have h1 : ∀ l ∈ s.map recordLine, wellFormedLine l := by
    intro l hl
    obtain ⟨b, hb, rfl⟩ := List.mem_map.mp hl
    exact wellFormedLine_recordLine b (hs b hb)
  have h2 := load_good_lines (s.map recordLine) h1
  rw [saveDatabase, writeRecords_eq_fileOfLines]
  apply List.map_injective_iff.mpr (Option.some_injective _)
  rw [h2, List.map_map]
  apply List.map_congr_left
  intro b hb
  exact decodeLine_recordLine b (hs b hb)

/-! ### Lookup by ISBN, the not-found outcomes and the list of borrowed books -/

theorem scanISBN_some_iff (isbn : List Char) :
    ∀ (database : List Database) (currentSize i : Nat) (b : Database),
    scanISBN database currentSize isbn = some (i, b) ↔
      (i < currentSize ∧ database[i]? = some b ∧ b.isbn = isbn ∧
        ∀ j a, j < i → database[j]? = some a → a.isbn ≠ isbn) := by
  intro database
  induction database with
  | nil =>
    intro currentSize i b
    cases currentSize <;> simp [scanISBN]
  | cons a rest ih =>
    intro currentSize i b
    cases currentSize with
    | zero => simp [scanISBN]
    | succ n =>
      unfold scanISBN
      by_cases h : a.isbn = isbn
      · rw [if_pos h]
        constructor
        · intro he
          simp only [Option.some.injEq, Prod.mk.injEq] at he
          obtain ⟨rfl, rfl⟩ := he
          exact ⟨by omega, by simp, h, fun j c hj _ => absurd hj (by omega)⟩
        · rintro ⟨_, hb, _, hfirst⟩
          cases i with
          | zero =>
            simp only [List.getElem?_cons_zero, Option.some.injEq] at hb
            rw [hb]
          | succ k => exact absurd h (hfirst 0 a (by omega) (by simp))
      · rw [if_neg h]
        constructor
        · intro he
          cases hs : scanISBN rest n isbn with
          | none => rw [hs] at he; simp at he
          | some p =>
            rw [hs] at he
            simp only [Option.map_some', Option.some.injEq, Prod.mk.injEq] at he
            obtain ⟨rfl, rfl⟩ := he
            obtain ⟨h1, h2, h3, h4⟩ := (ih n p.1 p.2).mp hs
            refine ⟨by omega, by simpa using h2, h3, ?_⟩
            intro j c hj hc
            cases j with
            | zero =>
              simp only [List.getElem?_cons_zero, Option.some.injEq] at hc
              rw [← hc]; exact h
            | succ m => exact h4 m c (by omega) (by simpa using hc)
        · rintro ⟨hi, hb, hisbn, hfirst⟩
          cases i with
          | zero =>
            simp only [List.getElem?_cons_zero, Option.some.injEq] at hb
            rw [hb] at h
            exact absurd hisbn h
          | succ k =>
            have := (ih n k b).mpr ⟨by omega, by simpa using hb, hisbn,
              fun j c hj hc => hfirst (j + 1) c (by omega) (by simpa using hc)⟩
            rw [this]
            rfl

theorem scanISBN_none_iff (isbn : List Char) :
    ∀ (database : List Database) (currentSize : Nat),
    scanISBN database currentSize isbn = none ↔
      ∀ b ∈ database.take currentSize, b.isbn ≠ isbn := by
  intro database
  induction database with
  | nil =>
    intro currentSize
    cases currentSize <;> simp [scanISBN]
  | cons a rest ih =>
    intro currentSize
    cases currentSize with
    | zero => simp [scanISBN]
    | succ n =>
      unfold scanISBN
      by_cases h : a.isbn = isbn
      · simp [h]
      · rw [if_neg h]
        simp only [Option.map_eq_none', ih n, List.take_succ_cons, List.mem_cons, forall_eq_or_imp]
        exact ⟨fun hr => ⟨h, hr⟩, fun hr => hr.2⟩

/-- C12. The scan of `findBookByISBN` returns index `i` and record `b` exactly when `b`
is the record at `i`, its ISBN equals the given one, and no record at a smaller
index has that ISBN (so with several records of that ISBN the first is found); the
record displayed is the one the scan returns, whatever action follows; and the
message "not found" is printed exactly when no record of the store has that ISBN. -/
theorem findBookByISBN_first_match (database : List Database) (currentSize : Nat)
    (isbn : List Char) (action : Int) (tm : Tm) (file : List Char) :
    (∀ i b, scanISBN database currentSize isbn = some (i, b) ↔
      (i < currentSize ∧ database[i]? = some b ∧ b.isbn = isbn ∧
        ∀ j a, j < i → database[j]? = some a → a.isbn ≠ isbn)) ∧
    (findBookByISBN database currentSize isbn action tm file).found =
      (scanISBN database currentSize isbn).map (fun p => p.2) ∧
    ((findBookByISBN database currentSize isbn action tm file).notFound = true ↔
      ∀ b ∈ database.take currentSize, b.isbn ≠ isbn) := by
  refine ⟨scanISBN_some_iff isbn database currentSize, ?_, ?_⟩
  · unfold findBookByISBN
    cases h : scanISBN database currentSize isbn with
    | none => rfl
    | some p =>
      obtain ⟨i, b⟩ := p
      simp only
      split
      · rfl
      · split <;> rfl
  · rw [← scanISBN_none_iff]
    unfold findBookByISBN
    cases h : scanISBN database currentSize isbn with
    | none => simp
    | some p =>
      obtain ⟨i, b⟩ := p
      simp only
      split
      · simp
      · split <;> simp

theorem borrowBook_notFound (isbn : List Char) (tm : Tm) :
    ∀ (database : List Database) (currentSize : Nat),
    (∀ b ∈ database.take currentSize, b.isbn ≠ isbn) →
    borrowBook database currentSize isbn tm = (database, BorrowMsg.notFound) := by
  intro database
  induction database with
  | nil => intro currentSize _; cases currentSize <;> rfl
  | cons a rest ih =>
    intro currentSize h
    cases currentSize with
    | zero => rfl
    | succ n =>
      have ha : a.isbn ≠ isbn := h a (by simp)
      have hr := ih n (fun b hb => h b (by simp [hb]))
      rw [borrowBook, if_neg ha, hr]

theorem returnBook_notFound (isbn : List Char) :
    ∀ (database : List Database) (currentSize : Nat),
    (∀ b ∈ database.take currentSize, b.isbn ≠ isbn) →
    returnBook database currentSize isbn = (database, ReturnMsg.notFound) := by
  intro database
  induction database with
  | nil => intro currentSize _; cases currentSize <;> rfl
  | cons a rest ih =>
    intro currentSize h
    cases currentSize with
    | zero => rfl
    | succ n =>
      have ha : a.isbn ≠ isbn := h a (by simp)
      have hr := ih n (fun b hb => h b (by simp [hb]))
      rw [returnBook, if_neg ha, hr]

/-- C14. When no record of the store has the given ISBN, `borrowBook` and `returnBook`
each report "not found" and return the array as it was (every slot and, the count
being passed by value or never written, the length of the store unchanged). -/
theorem borrow_return_notFound (database : List Database) (currentSize : Nat)
    (isbn : List Char) (tm : Tm)
    (hno : ∀ b ∈ database.take currentSize, b.isbn ≠ isbn) :
    borrowBook database currentSize isbn tm = (database, BorrowMsg.notFound) ∧
    returnBook database currentSize isbn = (database, ReturnMsg.notFound) :=
  ⟨borrowBook_notFound isbn tm database currentSize hno,
   returnBook_notFound isbn database currentSize hno⟩

/-- No sample record has the ISBN 0000000000000: borrowing and returning it report
"not found" and leave the three records as they are. -/
theorem borrow_return_notFound_witness :
    borrowBook [sampleA, sampleB, sampleC] 3 "0000000000000".toList sampleTm =
      ([sampleA, sampleB, sampleC], BorrowMsg.notFound) ∧
    returnBook [sampleA, sampleB, sampleC] 3 "0000000000000".toList =
      ([sampleA, sampleB, sampleC], ReturnMsg.notFound) :=
  borrow_return_notFound [sampleA, sampleB, sampleC] 3 "0000000000000".toList sampleTm
    (by decide)

theorem showLoop_eq : ∀ (database : List Database) (currentSize : Nat),
    (showLoop database currentSize).2 =
      ((database.take currentSize).filter
        (fun b => decide (b.borrowed = ['t', 'r', 'u', 'e']))).map borrowedEntry ∧
    ((showLoop database currentSize).1 = false ↔
      ∀ b ∈ database.take currentSize, b.borrowed ≠ ['t', 'r', 'u', 'e']) := by
  intro database
  induction database with
  | nil => intro currentSize; cases currentSize <;> simp [showLoop]
  | cons a rest ih =>
    intro currentSize
    cases currentSize with
    | zero => simp [showLoop]
    | succ n =>
      obtain ⟨ih1, ih2⟩ := ih n
      unfold showLoop
      by_cases h : a.borrowed = ['t', 'r', 'u', 'e']
      · rw [if_pos h]
        constructor
        · simp [h, ih1, borrowedEntry]
        · simp [h]
      · rw [if_neg h]
        constructor
        · simp [h, ih1]
        · simp [h, ih2]

/-- C17. The blocks `showBorrowedBooks` prints are those of the records of the store
whose `borrowed` equals `"true"`, each once and in store order, and the message "No
books are currently borrowed." appears exactly when no record of the store has
`borrowed` equal to `"true"`. -/
theorem showBorrowedBooks_lists_borrowed (database : List Database) (currentSize : Nat) :
    (showBorrowedBooks database currentSize).entries =
      ((database.take currentSize).filter
        (fun b => decide (b.borrowed = ['t', 'r', 'u', 'e']))).map borrowedEntry ∧
    ((showBorrowedBooks database currentSize).noneBorrowed = true ↔
      ∀ b ∈ database.take currentSize, b.borrowed ≠ ['t', 'r', 'u', 'e']) := by
  obtain ⟨h1, h2⟩ := showLoop_eq database currentSize
  refine ⟨h1, ?_⟩
  rw [← h2]
  simp [showBorrowedBooks]

theorem set_same (database : List Database) (i : Nat) (b : Database)
    (hb : database[i]? = some b) : database.set i b = database := by
  apply List.ext_getElem?
  intro j
  rw [List.getElem?_set]
  by_cases h : i = j
  · subst h
    have hlen : i < database.length := by
      rcases Nat.lt_or_ge i database.length with h | h
      · exact h
      · rw [List.getElem?_eq_none h] at hb; cases hb
    simp [hlen, hb]
  · simp [h]

/-- C20. When the first record with the given ISBN (at index `i`) has `borrowed ==
"false"` and `date == "-"`, `borrowBook` (local time a calendar date with a year of
at most 9999) followed by `returnBook` with the same ISBN succeeds twice and gives
back the array it started from. -/
theorem borrow_then_return_identity (database : List Database) (currentSize i : Nat)
    (isbn : List Char) (tm : Tm) (b : Database)
    (hi : i < currentSize) (hb : database[i]? = some b) (hisbn : b.isbn = isbn)
    (hfirst : ∀ j a, j < i → database[j]? = some a → a.isbn ≠ isbn)
    (hfalse : b.borrowed = ['f', 'a', 'l', 's', 'e']) (hdate : b.date = ['-'])
    (_hday : 1 ≤ tm.tm_mday ∧ tm.tm_mday ≤ 31) (_hmon : tm.tm_mon ≤ 11)
    (_hyear : tm.tm_year + 1900 ≤ 9999) :
    (borrowBook database currentSize isbn tm).2 = BorrowMsg.borrowed ∧
    returnBook (borrowBook database currentSize isbn tm).1 currentSize isbn =
      (database, ReturnMsg.returned) := by
  have hlen : i < database.length := by
    rcases Nat.lt_or_ge i database.length with h | h
    · exact h
    · rw [List.getElem?_eq_none h] at hb; cases hb
  have h1 := borrowBook_at isbn tm database currentSize i b hi hb hisbn hfirst
  rw [if_pos hfalse] at h1
  have hnew : ∀ b1 : Database, (database.set i b1)[i]? = some b1 := by
    intro b1
    simp [List.getElem?_set, hlen]
  have h2 := returnBook_at isbn _ currentSize i
    { b with borrowed := ['t', 'r', 'u', 'e'], date := formatDate tm } hi (hnew _) hisbn
    (fun j a hj ha => hfirst j a hj (by
      rw [List.getElem?_set] at ha
      have : ¬ i = j := by omega
      simpa [this] using ha))
  have htrue : (['t', 'r', 'u', 'e'] : List Char) = ['t', 'r', 'u', 'e'] := rfl
  rw [if_pos htrue] at h2
  rw [h1]
  refine ⟨rfl, ?_⟩
  rw [h2, List.set_set]
  have key : ∀ b1 : Database, b1 = b →
      (database.set i b1, ReturnMsg.returned) = (database, ReturnMsg.returned) := by
    intro b1 e
    rw [e, set_same database i b hb]
  apply key
  cases b
  simp only at hfalse hdate
  simp [hfalse, hdate]

/-- Borrowing the third sample record on 5 March 2024 and returning it gives the three
sample records back. -/
theorem borrow_then_return_identity_witness :
    returnBook (borrowBook [sampleA, sampleB, sampleC] 3 sampleC.isbn sampleTm).1 3
      sampleC.isbn = ([sampleA, sampleB, sampleC], ReturnMsg.returned) :=
  (borrow_then_return_identity [sampleA, sampleB, sampleC] 3 2 sampleC.isbn sampleTm
    sampleC (by decide) (by decide) rfl
    (fun j a hj ha => by
      interval_cases j <;> simp at ha <;> subst ha <;> decide)
    (by decide) (by decide) (by decide) (by decide) (by decide)).2

/-- In a store whose second and third records share an ISBN the lookup shows the second;
a lookup of an ISBN no record has prints "not found". -/
theorem findBookByISBN_first_match_witness :
    (findBookByISBN [sampleA, sampleB, { sampleC with isbn := sampleB.isbn }] 3 sampleB.isbn
      3 sampleTm []).found = some sampleB ∧
    (findBookByISBN [sampleA, sampleB, sampleC] 3 "0000000000000".toList 3 sampleTm
      []).notFound = true :=
  ⟨by
    rw [(findBookByISBN_first_match [sampleA, sampleB, { sampleC with isbn := sampleB.isbn }]
      3 sampleB.isbn 3 sampleTm []).2.1]
    decide,
   (findBookByISBN_first_match [sampleA, sampleB, sampleC] 3 "0000000000000".toList 3
      sampleTm []).2.2.mpr (by decide)⟩

/-- Of the three sample records only the second is borrowed: it is the one block
printed, and the message for an empty list does not appear. -/
theorem showBorrowedBooks_lists_borrowed_witness :
    (showBorrowedBooks [sampleA, sampleB, sampleC] 3).entries = [borrowedEntry sampleB] ∧
    (showBorrowedBooks [sampleA, sampleB, sampleC] 3).noneBorrowed = false :=
  ⟨by
    rw [(showBorrowedBooks_lists_borrowed [sampleA, sampleB, sampleC] 3).1]
    decide,
   by decide⟩

/-! ### The format of the file -/

theorem digitChar_eq_digit : ∀ k, k < 10 → Nat.digitChar k = digit k := by decide

theorem toDigitsCore_eq_printNat (fuel : Nat) : ∀ (n : Nat) (acc : List Char), n < fuel →
    Nat.toDigitsCore 10 fuel n acc = printNat n ++ acc := by
  induction fuel with
  | zero => intro n acc h; omega
  | succ f ih =>
    intro n acc h
    have hm : n % 10 < 10 := Nat.mod_lt _ (by omega)
    unfold Nat.toDigitsCore
    simp only
    by_cases h0 : n / 10 = 0
    · have hn : n < 10 := by omega
      have e : n % 10 = n := by omega
      rw [if_pos h0, printNat_lt n hn, e, digitChar_eq_digit n hn]
      rfl
    · rw [if_neg h0, ih (n / 10) _ (by omega), printNat_ge n (by omega),
        digitChar_eq_digit _ hm]
      simp

theorem printNat_eq_repr (n : Nat) : printNat n = (toString n).toList := by
  have h := toDigitsCore_eq_printNat (n + 1) n [] (by omega)
  rw [List.append_nil] at h
  show printNat n = (Nat.repr n).toList
  rw [Nat.repr, Nat.toDigits, h]
  rfl

theorem printInt_eq_toString (y : Int) : printInt y = (toString y).toList := by
  cases y with
  | ofNat m =>
    have h : ¬ (Int.ofNat m < 0) := by simp
    rw [printInt, if_neg h]
    show printNat m = (toString m).toList
    exact printNat_eq_repr m
  | negSucc m =>
    have h : Int.negSucc m < 0 := Int.negSucc_lt_zero m
    rw [printInt, if_pos h]
    show '-' :: printNat (m + 1) = ("-" ++ toString (m + 1)).toList
    rw [printNat_eq_repr]
    simp [String.toList]

theorem formatRecord_eq_storageLine (b : Database) : formatRecord b = storageLine b := by
  simp [formatRecord, storageLine, List.intercalate, printInt_eq_toString]

theorem writeRecords_eq_flatten : ∀ (database : List Database) (currentSize : Nat),
    writeRecords currentSize database =
      ((database.take currentSize).map storageLine).flatten := by
  intro database
  induction database with
  | nil => intro currentSize; cases currentSize <;> rfl
  | cons b rest ih =>
    intro currentSize
    cases currentSize with
    | zero => rfl
    | succ n => simp [writeRecords, ih n, formatRecord_eq_storageLine]

theorem storageLine_count_bar (b : Database)
    (h : ∀ c ∈ b.isbn ++ b.nameBook ++ b.authors ++ b.genre ++ b.borrowed ++ b.date, c ≠ '|') :
    (storageLine b).count '|' = 6 := by
  have hz : ∀ f : List Char, (∀ c ∈ f, c ≠ '|') → f.count '|' = 0 := by
    intro f hf
    exact List.count_eq_zero.mpr (fun hm => hf _ hm rfl)
  have h1 := hz b.isbn (fun c hc => h c (by simp [hc]))
  have h2 := hz b.nameBook (fun c hc => h c (by simp [hc]))
  have h3 := hz b.authors (fun c hc => h c (by simp [hc]))
  have h4 := hz (printInt b.year) (fun c hc => ((printInt_plain b.year).2 c hc).1)
  have h5 := hz b.genre (fun c hc => h c (by simp [hc]))
  have h6 := hz b.borrowed (fun c hc => h c (by simp [hc]))
  have h7 := hz b.date (fun c hc => h c (by simp [hc]))
  rw [← formatRecord_eq_storageLine, formatRecord]
  simp only [List.count_append, List.count_cons, h1, h2, h3, h4, h5, h6, h7, List.count_nil]
  decide

/-- C13. The text `saveDatabase` writes for a store is the concatenation, in the order of
the array, of one storage line per record: the seven fields joined by `|` with the
year in decimal and nothing after the borrow date but one newline; a record whose
text fields contain no `|` gives a line with exactly six delimiters; and the write
loops inside `addBook` and `deleteBook` produce the text `saveDatabase` produces for
the array and count they leave behind. -/
theorem saveDatabase_format (database : List Database) (currentSize : Nat) :
    saveDatabase database currentSize =
      ((database.take currentSize).map storageLine).flatten ∧
    (∀ b : Database,
      (∀ c ∈ b.isbn ++ b.nameBook ++ b.authors ++ b.genre ++ b.borrowed ++ b.date, c ≠ '|') →
      (storageLine b).count '|' = 6) ∧
    (∀ (maxSize : Nat) (inp : BookInput),
      (addBook database currentSize maxSize inp).file =
        saveDatabase (addBook database currentSize maxSize inp).database
          (addBook database currentSize maxSize inp).currentSize) ∧
    (∀ (index : Int) (file : List Char), 0 ≤ index → index < (currentSize : Int) →
      (deleteBook database currentSize index file).file =
        saveDatabase (deleteBook database currentSize index file).database
          (deleteBook database currentSize index file).currentSize) := by
  refine ⟨writeRecords_eq_flatten database currentSize, storageLine_count_bar, ?_, ?_⟩
  · intro maxSize inp
    rfl
  · intro index file h0 h1
    have hc : ¬ (index < 0 ∨ index ≥ (currentSize : Int)) := by omega
    simp only [deleteBook, hc, if_false]
    rfl

/-- The file of the first two sample records. -/
theorem saveDatabase_format_witness :
    saveDatabase [sampleA, sampleB, sampleC] 2 =
      ("9780000000001|Clean Code|Robert Martin|2008|Software|false|-\n" ++
       "9780000000002|Refactoring|Martin Fowler|1999|Software|true|05-03-2024\n").toList := by
  rw [(saveDatabase_format [sampleA, sampleB, sampleC] 2).1]
  decide

/-! ### The year field -/

theorem isDigit_not_special (c : Char) (h : c.isDigit = true) :
    isspace c = false ∧ c ≠ '-' ∧ c ≠ '+' := by
  refine ⟨?_, ?_, ?_⟩
  · cases hs : isspace c with
    | false => rfl
    | true =>
      simp only [isspace, Bool.or_eq_true, decide_eq_true_eq] at hs
      rcases hs with ((((hs | hs) | hs) | hs) | hs) | hs <;> rw [hs] at h <;> exact absurd h (by decide)
  · intro hc; rw [hc] at h; exact absurd h (by decide)
  · intro hc; rw [hc] at h; exact absurd h (by decide)

theorem digitsValue_eq_foldl : ∀ (ds : List Char) (acc : Nat), ds.all Char.isDigit = true →
    digitsValue ds acc = ds.foldl (fun acc c => 10 * acc + (c.toNat - 48)) acc := by
  intro ds
  induction ds with
  | nil => intro acc _; rfl
  | cons c cs ih =>
    intro acc h
    simp only [List.all_cons, Bool.and_eq_true] at h
    simp only [digitsValue, h.1, if_true, List.foldl_cons]
    exact ih _ h.2

theorem digitsValue_stop (rest : List Char) (acc : Nat)
    (h : ∀ c ∈ rest.head?, c.isDigit = false) : digitsValue rest acc = acc := by
  cases rest with
  | nil => rfl
  | cons c cs =>
    have hc : c.isDigit = false := h c (by simp)
    simp [digitsValue, hc]

theorem digitsValue_prefix (ds rest : List Char) (hd : ds.all Char.isDigit = true)
    (hr : ∀ c ∈ rest.head?, c.isDigit = false) :
    digitsValue (ds ++ rest) 0 = decimalValue ds := by
  have hall : ∀ c ∈ ds, c.isDigit = true := by
    intro c hc
    exact (List.all_eq_true.mp hd) c hc
  rw [digitsValue_append ds hall, digitsValue_stop rest _ hr, digitsValue_eq_foldl ds 0 hd]
  rfl

theorem dropWhile_spaces_append (ws t : List Char) (hws : ws.all isspace = true) :
    (ws ++ t).dropWhile isspace = t.dropWhile isspace := by
  induction ws with
  | nil => rfl
  | cons c cs ih =>
    simp only [List.all_cons, Bool.and_eq_true] at hws
    simp only [List.cons_append, List.dropWhile_cons, hws.1, if_true]
    exact ih hws.2

theorem atoi_number_prefix (ws num rest : List Char) (hws : ws.all isspace = true)
    (hnum : wellFormedInt num = true) (hr : ∀ c ∈ rest.head?, c.isDigit = false) :
    atoi (ws ++ num ++ rest) = intValue num := by
  have nonempty_head : ∀ ds : List Char, (!ds.isEmpty && ds.all Char.isDigit) = true →
      ∃ c cs, ds = c :: cs ∧ c.isDigit = true ∧ ds.all Char.isDigit = true := by
    intro ds h
    cases ds with
    | nil => simp at h
    | cons c cs =>
      simp only [List.isEmpty_cons, Bool.not_false, Bool.true_and] at h
      have h2 := h
      simp only [List.all_cons, Bool.and_eq_true] at h2
      exact ⟨c, cs, rfl, h2.1, h⟩
  unfold atoi
  rw [List.append_assoc, dropWhile_spaces_append ws _ hws]
  by_cases hm : ∃ ds, num = '-' :: ds
  · obtain ⟨ds, rfl⟩ := hm
    simp only [wellFormedInt] at hnum
    obtain ⟨c, cs, hds, -, hall⟩ := nonempty_head ds hnum
    have hdrop : (('-' :: ds) ++ rest).dropWhile isspace = '-' :: (ds ++ rest) := by
      simp [List.dropWhile, isspace]
    rw [hdrop]
    simp only [intValue, digitsValue_prefix ds rest hall hr]
  · by_cases hp : ∃ ds, num = '+' :: ds
    · obtain ⟨ds, rfl⟩ := hp
      simp only [wellFormedInt] at hnum
      obtain ⟨c, cs, hds, -, hall⟩ := nonempty_head ds hnum
      have hdrop : (('+' :: ds) ++ rest).dropWhile isspace = '+' :: (ds ++ rest) := by
        simp [List.dropWhile, isspace]
      rw [hdrop]
      simp only [intValue, digitsValue_prefix ds rest hall hr]
    · have hnum2 : (!num.isEmpty && num.all Char.isDigit) = true := by
        unfold wellFormedInt at hnum
        split at hnum
        · exact absurd ⟨_, rfl⟩ hm
        · exact absurd ⟨_, rfl⟩ hp
        · exact hnum
      obtain ⟨c, cs, hds, hc, hall⟩ := nonempty_head num hnum2
      obtain ⟨h1, h2, h3⟩ := isDigit_not_special c hc
      have hdrop : (num ++ rest).dropWhile isspace = c :: (cs ++ rest) := by
        rw [hds]
        simp [List.dropWhile, h1]
      have hval : intValue num = (decimalValue num : Int) := by
        rw [hds]
        unfold intValue
        split
        · rename_i heq
          simp only [List.cons.injEq] at heq
          exact absurd heq.1 h2
        · rename_i heq
          simp only [List.cons.injEq] at heq
          exact absurd heq.1 h3
        · rfl
      rw [hdrop, hval]
      have hv := digitsValue_prefix num rest hall hr
      split
      · rename_i heq
        simp only [List.cons.injEq] at heq
        exact absurd heq.1 h2
      · rename_i heq
        simp only [List.cons.injEq] at heq
        exact absurd heq.1 h3
      · subst hds
        exact congrArg Int.ofNat hv

theorem atoi_no_number (s : List Char) (h : startsWithNumber s = false) : atoi s = 0 := by
  unfold startsWithNumber at h
  unfold atoi
  generalize s.dropWhile isspace = t at h
  cases t with
  | nil => rfl
  | cons c cs =>
    by_cases hm : c = '-'
    · subst hm
      cases cs with
      | nil => rfl
      | cons d ds =>
        simp only at h
        simp [digitsValue, h]
    · by_cases hp : c = '+'
      · subst hp
        cases cs with
        | nil => rfl
        | cons d ds =>
          simp only at h
          simp [digitsValue, h]
      · have hc : c.isDigit = false := by
          split at h
          · rename_i heq
            simp only [List.cons.injEq] at heq
            exact absurd heq.1 hm
          · rename_i heq
            simp only [List.cons.injEq] at heq
            exact absurd heq.1 hp
          · rename_i heq
            simp only [List.cons.injEq] at heq
            rw [heq.1]
            exact h
          · rename_i heq
            cases heq
        split
        · rename_i heq
          simp only [List.cons.injEq] at heq
          exact absurd heq.1 hm
        · rename_i heq
          simp only [List.cons.injEq] at heq
          exact absurd heq.1 hp
        · simp [digitsValue, hc]

/-- C15, as stated, fails on a line with seven fields whose year field is `12abc`: the
field is not a well-formed integer, yet the decoded year is 12, not 0.  (A line with
seven fields whose year field is empty does not decode at all: the empty field is
skipped and the date is reported missing.) -/
theorem parseLine_year_counterexample :
    (splitBar sampleLineYear).length = 7 ∧
    wellFormedInt "12abc".toList = false ∧
    parseLine sampleLineYear =
      .ok { isbn := "1234567890123".toList, nameBook := "Dune".toList,
            authors := "Frank Herbert".toList, year := 12, genre := "Novel".toList,
            date := "-".toList, borrowed := "false".toList } ∧
    (splitBar "1234567890123|Dune|Frank Herbert||Novel|false|-".toList).length = 7 ∧
    parseLine "1234567890123|Dune|Frank Herbert||Novel|false|-".toList =
      .error .missingDate :=
  ⟨by decide, by decide, by decide, by decide, by decide⟩

/-- C15, amended.  For a line whose `|`-separated fields are all non-empty and number
seven or more, decoding succeeds whatever the text of the year field, and the decoded
year is: the integer's value when the field is a well-formed integer that fits an
`int`; more generally the value of the well-formed integer the field starts with,
after white space and before a character that is not a digit (12 for `12abc`), when
that integer fits an `int`; and 0 when the field does not start with a number.
Nothing is stated for a number beyond the range of `int`. -/
theorem parseLine_year_lenient (line : List Char) (hne : ∀ f ∈ splitBar line, f ≠ [])
    (f1 f2 f3 f4 f5 f6 f7 : List Char) (more : List (List Char))
    (hsplit : splitBar line = f1 :: f2 :: f3 :: f4 :: f5 :: f6 :: f7 :: more) :
    (∃ b, parseLine line = .ok b) ∧
    (∀ b, parseLine line = .ok b →
      (wellFormedInt f4 = true → fitsInt (intValue f4) → b.year = intValue f4) ∧
      (∀ ws num rest, f4 = ws ++ num ++ rest → ws.all isspace = true →
        wellFormedInt num = true → (∀ c ∈ rest.head?, c.isDigit = false) →
        fitsInt (intValue num) → b.year = intValue num) ∧
      (startsWithNumber f4 = false → b.year = 0)) := by
  have htok : tokens line = splitBar line := by
    rw [tokens, List.filter_eq_self]
    intro f hf
    have := hne f hf
    cases f with
    | nil => exact absurd rfl this
    | cons a l => rfl
  have hparse : ∃ b, parseLine line = .ok b ∧ b.year = atoi f4 := by
    rw [parseLine_eq_parseFields, htok, hsplit]
    exact ⟨_, rfl, rfl⟩
  obtain ⟨b0, hb0, hy0⟩ := hparse
  refine ⟨⟨b0, hb0⟩, ?_⟩
  intro b hb
  have hbb : b = b0 := by
    rw [hb0] at hb
    exact (Except.ok.inj hb).symm
  rw [hbb, hy0]
  refine ⟨?_, ?_, atoi_no_number f4⟩
  · intro hw _
    have := atoi_number_prefix [] f4 [] rfl hw (by simp)
    simpa using this
  · intro ws num rest hf hws hnum hr _
    rw [hf]
    exact atoi_number_prefix ws num rest hws hnum hr

/-- The line with the year field `12abc` decodes, and its year is that of the leading
integer `12`, which fits an `int`. -/
theorem parseLine_year_lenient_witness :
    (∃ b, parseLine sampleLineYear = .ok b) ∧
    ∀ b, parseLine sampleLineYear = .ok b → b.year = intValue "12".toList :=
  ⟨(parseLine_year_lenient sampleLineYear (by decide) "1234567890123".toList "Dune".toList
      "Frank Herbert".toList "12abc".toList "Novel".toList "false".toList "-".toList []
      (by decide)).1,
   fun b hb =>
    ((parseLine_year_lenient sampleLineYear (by decide) "1234567890123".toList "Dune".toList
      "Frank Herbert".toList "12abc".toList "Novel".toList "false".toList "-".toList []
      (by decide)).2 b hb).2.1 [] "12".toList "abc".toList (by decide) (by decide)
      (by decide) (by decide) (by decide)⟩

/-! ### The ISBN prompt of addBook -/

theorem readChars_snd_length_succ (n : Nat) (c : Char) (cs : List Char) :
    (readChars (n + 1) (c :: cs)).2.length ≤ cs.length := by
  unfold readChars
  by_cases h : c = '\n'
  · simp [h]
  · simp only [h, if_false]
    exact readChars_snd_length_le _ _

theorem discardLine_length_le (s : List Char) : (discardLine s).length ≤ s.length := by
  unfold discardLine
  rw [List.length_drop]
  have := (List.dropWhile_sublist (fun c => decide (c ≠ '\n')) (l := s)).length_le
  omega

theorem readISBN_fuel (f : Nat) : ∀ (g : Nat) (stdin : List Char),
    stdin.length ≤ f → stdin.length ≤ g → readISBN f stdin = readISBN g stdin := by
  induction f with
  | zero =>
    intro g stdin hf _
    have : stdin = [] := List.eq_nil_of_length_eq_zero (by omega)
    subst this
    cases g <;> rfl
  | succ f ih =>
    intro g stdin hf hg
    cases stdin with
    | nil => cases g <;> rfl
    | cons c cs =>
      cases g with
      | zero => simp at hg
      | succ g =>
        have h1 : (fgets 15 (c :: cs)).2.length ≤ cs.length := readChars_snd_length_succ 13 c cs
        have h2 := discardLine_length_le (fgets 15 (c :: cs)).2
        simp only [List.length_cons] at hf hg
        simp only [readISBN]
        rw [ih g (fgets 15 (c :: cs)).2 (by omega) (by omega),
          ih g (discardLine (fgets 15 (c :: cs)).2) (by omega) (by omega)]

theorem readISBN_accepts_length (fuel : Nat) : ∀ (stdin : List Char)
    (r : List Char × List Char × List (List Char)),
    readISBN fuel stdin = some r → r.1.length = 13 ∧ ∀ e ∈ r.2.2, e.length ≠ 13 := by
  induction fuel with
  | zero => intro stdin r h; simp [readISBN] at h
  | succ f ih =>
    intro stdin r h
    cases stdin with
    | nil => simp [readISBN] at h
    | cons c cs =>
      simp only [readISBN] at h
      by_cases h13 : (stripNewline (fgets 15 (c :: cs)).1).length = 13
      · rw [if_pos h13] at h
        simp only [Option.some.injEq] at h
        rw [← h]
        exact ⟨h13, by simp⟩
      · rw [if_neg h13] at h
        by_cases hlt : (stripNewline (fgets 15 (c :: cs)).1).length < 13
        · rw [if_pos hlt] at h
          cases hr : readISBN f (fgets 15 (c :: cs)).2 with
          | none => rw [hr] at h; simp at h
          | some q =>
            rw [hr] at h
            simp only [Option.map_some', Option.some.injEq] at h
            obtain ⟨hq1, hq2⟩ := ih _ q hr
            rw [← h]
            refine ⟨hq1, ?_⟩
            intro e he
            simp only [List.mem_cons] at he
            rcases he with he | he
            · rw [he]; exact h13
            · exact hq2 e he
        · rw [if_neg hlt] at h
          cases hr : readISBN f (discardLine (fgets 15 (c :: cs)).2) with
          | none => rw [hr] at h; simp at h
          | some q =>
            rw [hr] at h
            simp only [Option.map_some', Option.some.injEq] at h
            obtain ⟨hq1, hq2⟩ := ih _ q hr
            rw [← h]
            refine ⟨hq1, ?_⟩
            intro e he
            simp only [List.mem_cons] at he
            rcases he with he | he
            · rw [he]; exact h13
            · exact hq2 e he

/-- C16. The ISBN prompt of `addBook` tests the length of the entry only.  On the input
`12345`, then `abcdefghijklm`, the first entry is rejected and asked for again, but
the second, thirteen letters, is accepted; the record `addBook` then creates and
appends has the ISBN `abcdefghijklm`, which is not thirteen digits, and is not a valid
record of the data model. -/
theorem addBook_accepts_non_digit_isbn :
    addBookISBN "\n12345\nabcdefghijklm\nDune\n".toList =
      some ("abcdefghijklm".toList, "Dune\n".toList, ["12345".toList]) ∧
    lettersInput.isbn = "abcdefghijklm".toList ∧
    (addBook [] 0 50 lettersInput).database = [newBook lettersInput] ∧
    (newBook lettersInput).isbn.all Char.isDigit = false ∧
    validRecord (newBook lettersInput) = false :=
  ⟨by decide, by decide, by decide, by decide, by decide⟩

/-! ### Capacity of the array -/

theorem loadStep_within_capacity (buf : List Char) (st : LoadState)
    (h : st.database.length ≤ st.maxSize) :
    (loadStep buf st).database.length ≤ (loadStep buf st).maxSize := by
  unfold loadStep
  cases parseLine (stripNewline buf) with
  | ok book =>
    simp only [List.length_append, List.length_singleton]
    split <;> omega
  | error e =>
    simp only
    split <;> omega

theorem loadLoop_within_capacity (fuel : Nat) : ∀ (file : List Char) (st : LoadState),
    st.database.length ≤ st.maxSize →
    (loadLoop fuel file st).database.length ≤ (loadLoop fuel file st).maxSize := by
  induction fuel with
  | zero => intro file st h; exact h
  | succ f ih =>
    intro file st h
    cases file with
    | nil => exact h
    | cons c cs =>
      simp only [loadLoop]
      exact ih _ _ (loadStep_within_capacity _ st h)

/-- After `loadDatabase` the record count is within the capacity it allocated. -/
theorem loadDatabase_within_capacity (file : List Char) :
    (loadDatabase file).currentSize ≤ (loadDatabase file).maxSize :=
  loadLoop_within_capacity _ _ _ (by decide)

/-- From a state in which the tracked capacity is the allocated one, `addBook` writes
inside the block and keeps the two equal. -/
theorem capacityAfterAdd_consistent (c : Capacity) (h1 : c.maxSize = c.allocated)
    (h2 : c.currentSize ≤ c.allocated) :
    c.currentSize < (capacityAfterAdd c).allocated ∧
    (capacityAfterAdd c).maxSize = (capacityAfterAdd c).allocated ∧
    (capacityAfterAdd c).currentSize ≤ (capacityAfterAdd c).allocated := by
  unfold capacityAfterAdd
  by_cases h : c.currentSize ≥ c.maxSize
  · rw [if_pos h]
    exact ⟨by show c.currentSize < c.maxSize + 10; omega, rfl,
      by show c.currentSize + 1 ≤ c.maxSize + 10; omega⟩
  · rw [if_neg h]
    exact ⟨by show c.currentSize < c.allocated; omega, h1,
      by show c.currentSize + 1 ≤ c.allocated; omega⟩

/-- The count and the tracked capacity of the bookkeeping are those of `mainLoad` and
`mainAdd`. -/
theorem capacity_tracks_main (file : List Char) (st : MainState) (c : Capacity)
    (inp : BookInput) (h1 : st.currentSize = c.currentSize) (h2 : st.maxSize = c.maxSize) :
    (mainLoad file).currentSize = (capacityAfterLoad file).currentSize ∧
    (mainLoad file).maxSize = (capacityAfterLoad file).maxSize ∧
    (mainAdd st inp).currentSize = (capacityAfterAdd c).currentSize ∧
    (mainAdd st inp).maxSize = (capacityAfterAdd c).maxSize := by
  refine ⟨rfl, rfl, ?_, ?_⟩
  · simp only [mainAdd, addBook, capacityAfterAdd, h1]
    split <;> rfl
  · simp only [mainAdd, addBook, capacityAfterAdd, h1, h2]
    split <;> rfl

/-- C18. Starting from an empty file, `loadDatabase` allocates 10 slots while `main` sets
its capacity to 50.  Ten adds fill the slots 0 to 9; the capacity `main` passes on is
still 50, above the 10 slots allocated, so the eleventh add does not resize and writes
at index 10, which is not below the 10 slots of the block. -/
theorem add_writes_past_allocation :
    capacityAfterLoad [] = { currentSize := 0, maxSize := 50, allocated := 10 } ∧
    capacityAfterAdds 10 (capacityAfterLoad []) =
      { currentSize := 10, maxSize := 50, allocated := 10 } ∧
    (capacityAfterAdd (capacityAfterAdds 10 (capacityAfterLoad []))).allocated = 10 ∧
    ¬ (capacityAfterAdds 10 (capacityAfterLoad [])).currentSize <
        (capacityAfterAdd (capacityAfterAdds 10 (capacityAfterLoad []))).allocated ∧
    ¬ (capacityAfterAdds 10 (capacityAfterLoad [])).maxSize ≤
        (capacityAfterAdds 10 (capacityAfterLoad [])).allocated :=
  ⟨by decide, by decide, by decide, by decide, by decide⟩

/-! ### The title search -/

theorem toLowerCase_eq (s : List Char) : toLowerCase s = s.map Char.toLower := by
  unfold toLowerCase
  apply List.map_congr_left
  intro c _
  by_cases h : c ≠ '\n' ∧ c ≠ '\r'
  · rw [if_pos h]; rfl
  · rw [if_neg h]
    have : c = '\n' ∨ c = '\r' := by
      by_cases h1 : c = '\n'
      · exact Or.inl h1
      · by_cases h2 : c = '\r'
        · exact Or.inr h2
        · exact absurd ⟨h1, h2⟩ h
    rcases this with rfl | rfl <;> rfl

theorem strstr_iff : ∀ (haystack needle : List Char),
    strstr haystack needle = true ↔ needle <:+: haystack := by
  intro haystack
  induction haystack with
  | nil =>
    intro needle
    rw [List.infix_nil]
    cases needle <;> simp [strstr]
  | cons c cs ih =>
    intro needle
    rw [strstr, Bool.or_eq_true, List.isPrefixOf_iff_prefix, ih needle, List.infix_cons_iff]

theorem titleLoop_spec (title : List Char) :
    ∀ (database : List Database) (currentSize i : Nat) (acc : TitleMatches),
    (∀ b ∈ database.take currentSize, b.nameBook.length < 50) →
    acc.foundIndexes.length +
      (titleMatchesSpec title (database.take currentSize) i).length ≤ 100 →
    titleLoop (toLowerCase title) database currentSize i acc =
      some { listing := acc.listing ++
               ((titleMatchesSpec title (database.take currentSize) i).enumFrom
                 (acc.foundIndexes.length + 1)).map
                   (fun q => (q.1, q.2.2.nameBook, q.2.2.isbn)),
             foundIndexes := acc.foundIndexes ++
               (titleMatchesSpec title (database.take currentSize) i).map (fun p => p.1) } := by
  intro database
  induction database with
  | nil =>
    intro currentSize i acc _ _
    cases currentSize <;> simp [titleLoop, titleMatchesSpec]
  | cons b rest ih =>
    intro currentSize i acc hlen hcount
    cases currentSize with
    | zero => simp [titleLoop, titleMatchesSpec]
    | succ n =>
      have hb : b.nameBook.length < 50 := hlen b (by simp)
      have hrest : ∀ x ∈ rest.take n, x.nameBook.length < 50 :=
        fun x hx => hlen x (by simp [hx])
      have hcopy : strcpy 50 b.nameBook = some b.nameBook := by
        simp [strcpy, hb]
      have hmatch : strstr (toLowerCase b.nameBook) (toLowerCase title) = true ↔
          titleContains title b := by
        rw [strstr_iff, toLowerCase_eq, toLowerCase_eq]
        rfl
      rw [titleLoop, hcopy]
      simp only
      by_cases hc : titleContains title b
      · have hspec : titleMatchesSpec title ((b :: rest).take (n + 1)) i =
            (i, b) :: titleMatchesSpec title (rest.take n) (i + 1) := by
          simp [titleMatchesSpec, List.enumFrom_cons, List.filter_cons, hc]
        rw [hspec] at hcount ⊢
        simp only [List.length_cons] at hcount
        rw [if_pos (hmatch.mpr hc), if_pos (by omega)]
        rw [ih n (i + 1) _ hrest (by simp only [List.length_append, List.length_singleton]; omega)]
        simp [List.enumFrom_cons]
      · have hspec : titleMatchesSpec title ((b :: rest).take (n + 1)) i =
            titleMatchesSpec title (rest.take n) (i + 1) := by
          simp [titleMatchesSpec, List.enumFrom_cons, List.filter_cons, hc]
        rw [hspec] at hcount ⊢
        have hno : ¬ strstr (toLowerCase b.nameBook) (toLowerCase title) = true :=
          fun h => hc (hmatch.mp h)
        rw [if_neg hno]
        exact ih n (i + 1) acc hrest hcount

/-- When the search text and every title of the store have fewer than 50 characters
and at most 100 records match, the matching loop of `findBookByTitle` finds exactly the
records whose lowered title contains the lowered search text: their indices in
store order, and the lines numbered from 1 with title and ISBN. -/
theorem titleMatches_spec (database : List Database) (currentSize : Nat) (title : List Char)
    (htitle : title.length < 50)
    (hnames : ∀ b ∈ database.take currentSize, b.nameBook.length < 50)
    (hcount : (titleMatchesSpec title (database.take currentSize) 0).length ≤ 100) :
    titleMatches database currentSize title =
      some { listing :=
               ((titleMatchesSpec title (database.take currentSize) 0).enumFrom 1).map
                 (fun q => (q.1, q.2.2.nameBook, q.2.2.isbn)),
             foundIndexes :=
               (titleMatchesSpec title (database.take currentSize) 0).map (fun p => p.1) } := by
  have hcopy : strcpy 50 title = some title := by
    simp [strcpy, htitle]
  rw [titleMatches, hcopy]
  simp only
  rw [titleLoop_spec title database currentSize 0 _ hnames (by simpa using hcount)]
  simp

/-- C11. On the store with the titles `Clean Code` and `Refactoring` the search for `code`
lists exactly `Clean Code` as number 1 and the search for `z` lists nothing.  But a
valid record whose title has 50 characters does not fit `char lowerName[50]`: the
copy writes past the array and the search has no defined result.  Likewise with 101
records that all match, the 101st index does not fit `int foundIndexes[100]`. -/
theorem titleMatches_overflows_buffers :
    titleMatches twoTitles 2 "code".toList =
      some { listing := [(1, "Clean Code".toList, "9780000000001".toList)],
             foundIndexes := [0] } ∧
    titleMatches twoTitles 2 "z".toList = some { listing := [], foundIndexes := [] } ∧
    validRecord longTitleBook = true ∧ longTitleBook.nameBook.length = 50 ∧
    titleContains "a".toList longTitleBook ∧
    titleMatches [longTitleBook] 1 "a".toList = none ∧
    titleMatches (List.replicate 101 sampleA) 101 [] = none :=
  ⟨by decide, by decide, by decide, by decide, by decide, by decide, by decide⟩

/-! ### Loading what was saved -/

theorem strtok_props (s t r : List Char) (h : strtok s = some (t, r)) :
    t ≠ [] ∧ (∀ c ∈ t, c ≠ '|' ∧ c ∈ s) ∧ (∀ c ∈ r, c ∈ s) ∧
    t.length + r.length ≤ s.length ∧ (r ≠ [] → t.length + r.length + 1 ≤ s.length) := by
  unfold strtok at h
  have hsub : (s.dropWhile (fun c => decide (c = '|'))).Sublist s := List.dropWhile_sublist _
  cases hd : s.dropWhile (fun c => decide (c = '|')) with
  | nil => rw [hd] at h; simp at h
  | cons c cs =>
    rw [hd] at h hsub
    simp only [Option.some.injEq, Prod.mk.injEq] at h
    obtain ⟨ht, hr⟩ := h
    have hc : c ≠ '|' := by
      have := List.head_dropWhile_not (fun c => decide (c = '|')) s (by rw [hd]; simp)
      simp only [hd, List.head_cons, decide_eq_false_iff_not] at this
      exact this
    have hsplit := List.takeWhile_append_dropWhile (fun c => decide (c ≠ '|')) (c :: cs)
    have hlen := congrArg List.length hsplit
    rw [List.length_append, ht] at hlen
    have hsl := hsub.length_le
    have hrlen : r.length = ((c :: cs).dropWhile (fun c => decide (c ≠ '|'))).length - 1 := by
      rw [← hr, List.length_drop]
    have htne : t ≠ [] := by
      rw [← ht]
      simp [List.takeWhile, hc]
    refine ⟨htne, ?_, ?_, by omega, ?_⟩
    · intro x hx
      rw [← ht] at hx
      have h1 := List.mem_takeWhile_imp hx
      have h2 : x ∈ c :: cs := (List.takeWhile_sublist _).subset hx
      exact ⟨by simpa using h1, hsub.subset h2⟩
    · intro x hx
      rw [← hr] at hx
      have h2 : x ∈ c :: cs :=
        (List.dropWhile_sublist _).subset (List.mem_of_mem_drop hx)
      exact hsub.subset h2
    · intro hne
      have : r.length ≠ 0 := fun h0 => hne (List.eq_nil_of_length_eq_zero h0)
      omega

theorem strtok_arg_ne_nil (s t r : List Char) (h : strtok s = some (t, r)) : s ≠ [] := by
  intro hs
  rw [hs] at h
  simp [strtok] at h

theorem isDigit_value_le (c : Char) (h : c.isDigit = true) : c.toNat - 48 ≤ 9 := by
  simp only [Char.isDigit, Bool.and_eq_true, decide_eq_true_eq] at h
  have h2 : c.val ≤ 57 := h.2
  have : c.toNat ≤ 57 := by
    simpa [Char.toNat, UInt32.le_def] using h2
  omega

theorem digitsValue_lt : ∀ (ds : List Char) (acc : Nat),
    digitsValue ds acc < (acc + 1) * 10 ^ ds.length := by
  intro ds
  induction ds with
  | nil => intro acc; simp [digitsValue]
  | cons c cs ih =>
    intro acc
    have hpos : 0 < 10 ^ cs.length := Nat.pow_pos (by decide)
    unfold digitsValue
    by_cases hc : c.isDigit = true
    · rw [if_pos hc]
      have hd := isDigit_value_le c hc
      have h1 := ih (10 * acc + (c.toNat - 48))
      have h2 : (10 * acc + (c.toNat - 48) + 1) * 10 ^ cs.length ≤
          (10 * acc + 10) * 10 ^ cs.length := Nat.mul_le_mul_right _ (by omega)
      have h3 : (10 * acc + 10) * 10 ^ cs.length = (acc + 1) * 10 ^ (c :: cs).length := by
        rw [List.length_cons, Nat.pow_succ]
        ring
      omega
    · rw [if_neg hc, List.length_cons, Nat.pow_succ]
      have : acc + 1 ≤ (acc + 1) * (10 ^ cs.length * 10) :=
        Nat.le_mul_of_pos_right _ (by omega)
      omega

theorem printNat_length_le (k : Nat) : ∀ (n : Nat), n < 10 ^ k → 1 ≤ k →
    (printNat n).length ≤ k := by
  induction k with
  | zero => intro n _ h; omega
  | succ k ih =>
    intro n hn _
    by_cases h : n < 10
    · rw [printNat_lt n h]; simp
    · have hk : 1 ≤ k := by
        rcases Nat.eq_zero_or_pos k with h0 | h0
        · subst h0; simp at hn; omega
        · exact h0
      have hdiv : n / 10 < 10 ^ k := by
        rw [Nat.pow_succ] at hn
        exact Nat.div_lt_of_lt_mul (by omega)
      rw [printNat_ge n (by omega), List.length_append, List.length_singleton]
      have := ih (n / 10) hdiv hk
      omega

theorem printNat_digitsValue_length (cs : List Char) :
    (printNat (digitsValue cs 0)).length ≤ max 1 cs.length := by
  cases cs with
  | nil => simp [digitsValue, printNat_lt]
  | cons c l =>
    have h := digitsValue_lt (c :: l) 0
    simp only [Nat.zero_add, Nat.one_mul] at h
    have := printNat_length_le (c :: l).length _ h (by simp)
    omega

theorem printInt_atoi_length (t : List Char) (ht : t ≠ []) :
    (printInt (atoi t)).length ≤ t.length := by
  have hsub : (t.dropWhile isspace).length ≤ t.length :=
    (List.dropWhile_sublist isspace).length_le
  have htlen : 1 ≤ t.length := by
    cases t with
    | nil => exact absurd rfl ht
    | cons a l => simp
  have hnat : ∀ cs : List Char, cs.length ≤ t.length →
      (printInt (digitsValue cs 0 : Int)).length ≤ t.length := by
    intro cs hcs
    have h1 := printNat_digitsValue_length cs
    have h2 : ¬ ((digitsValue cs 0 : Int) < 0) := by omega
    rw [printInt, if_neg h2, Int.natAbs_ofNat]
    omega
  unfold atoi
  split
  · rename_i cs heq
    rw [heq] at hsub
    simp only [List.length_cons] at hsub
    by_cases hv : digitsValue cs 0 = 0
    · rw [hv]
      simp only [Int.Nat.cast_ofNat_Int, Int.neg_zero]
      have : (printInt 0).length = 1 := by decide
      omega
    · have hneg : (-(digitsValue cs 0 : Int)) < 0 := by omega
      rw [printInt, if_pos hneg, Int.natAbs_neg, Int.natAbs_ofNat, List.length_cons]
      have h1 := printNat_digitsValue_length cs
      have hcs : cs ≠ [] := by
        intro h
        rw [h] at hv
        exact hv rfl
      have : 1 ≤ cs.length := by
        cases cs with
        | nil => exact absurd rfl hcs
        | cons a l => simp
      omega
  · rename_i cs heq
    rw [heq] at hsub
    simp only [List.length_cons] at hsub
    exact hnat cs (by omega)
  · exact hnat _ hsub

theorem strncpy_plain (size : Nat) (hsize : 2 ≤ size) (t : List Char) (hne : t ≠ [])
    (hch : ∀ c ∈ t, c ≠ '|' ∧ c ≠ '\n' ∧ c ≠ '\x00') :
    plainField (strncpy size t) ∧ (strncpy size t).length ≤ size - 1 ∧
    (strncpy size t).length ≤ t.length := by
  unfold strncpy
  refine ⟨⟨?_, ?_⟩, ?_, ?_⟩
  · cases t with
    | nil => exact absurd rfl hne
    | cons a l =>
      obtain ⟨k, hk⟩ : ∃ k, size - 1 = k + 1 := ⟨size - 2, by omega⟩
      rw [hk]
      simp
  · intro c hc
    exact hch c (List.mem_of_mem_take hc)
  · rw [List.length_take]; omega
  · rw [List.length_take]; omega

theorem parseLine_ok_compact (line : List Char) (b : Database)
    (h : parseLine line = .ok b) (hchars : ∀ c ∈ line, c ≠ '\n' ∧ c ≠ '\x00')
    (hlen : line.length ≤ 255) : compactRecord b := by
  unfold parseLine at h
  cases h1 : strtok line with
  | none => rw [h1] at h; cases h
  | some p1 =>
  obtain ⟨t1, r1⟩ := p1
  rw [h1] at h
  simp only at h
  cases h2 : strtok r1 with
  | none => rw [h2] at h; cases h
  | some p2 =>
  obtain ⟨t2, r2⟩ := p2
  rw [h2] at h
  simp only at h
  cases h3 : strtok r2 with
  | none => rw [h3] at h; cases h
  | some p3 =>
  obtain ⟨t3, r3⟩ := p3
  rw [h3] at h
  simp only at h
  cases h4 : strtok r3 with
  | none => rw [h4] at h; cases h
  | some p4 =>
  obtain ⟨t4, r4⟩ := p4
  rw [h4] at h
  simp only at h
  cases h5 : strtok r4 with
  | none => rw [h5] at h; cases h
  | some p5 =>
  obtain ⟨t5, r5⟩ := p5
  rw [h5] at h
  simp only at h
  cases h6 : strtok r5 with
  | none => rw [h6] at h; cases h
  | some p6 =>
  obtain ⟨t6, r6⟩ := p6
  rw [h6] at h
  simp only at h
  cases h7 : strtok r6 with
  | none => rw [h7] at h; cases h
  | some p7 =>
  obtain ⟨t7, r7⟩ := p7
  rw [h7] at h
  simp only [Except.ok.injEq] at h
  obtain ⟨n1, c1, m1, -, l1⟩ := strtok_props _ _ _ h1
  obtain ⟨n2, c2, m2, -, l2⟩ := strtok_props _ _ _ h2
  obtain ⟨n3, c3, m3, -, l3⟩ := strtok_props _ _ _ h3
  obtain ⟨n4, c4, m4, -, l4⟩ := strtok_props _ _ _ h4
  obtain ⟨n5, c5, m5, -, l5⟩ := strtok_props _ _ _ h5
  obtain ⟨n6, c6, m6, -, l6⟩ := strtok_props _ _ _ h6
  obtain ⟨n7, c7, -, l7, -⟩ := strtok_props _ _ _ h7
  have l1 := l1 (strtok_arg_ne_nil _ _ _ h2)
  have l2 := l2 (strtok_arg_ne_nil _ _ _ h3)
  have l3 := l3 (strtok_arg_ne_nil _ _ _ h4)
  have l4 := l4 (strtok_arg_ne_nil _ _ _ h5)
  have l5 := l5 (strtok_arg_ne_nil _ _ _ h6)
  have l6 := l6 (strtok_arg_ne_nil _ _ _ h7)
  have i1 : ∀ c ∈ r1, c ∈ line := m1
  have i2 : ∀ c ∈ r2, c ∈ line := fun c hc => i1 c (m2 c hc)
  have i3 : ∀ c ∈ r3, c ∈ line := fun c hc => i2 c (m3 c hc)
  have i4 : ∀ c ∈ r4, c ∈ line := fun c hc => i3 c (m4 c hc)
  have i5 : ∀ c ∈ r5, c ∈ line := fun c hc => i4 c (m5 c hc)
  have i6 : ∀ c ∈ r6, c ∈ line := fun c hc => i5 c (m6 c hc)
  have p1 := strncpy_plain 15 (by decide) t1 n1
    (fun c hc => ⟨(c1 c hc).1, hchars c (c1 c hc).2⟩)
  have p2 := strncpy_plain 51 (by decide) t2 n2
    (fun c hc => ⟨(c2 c hc).1, hchars c (i1 c (c2 c hc).2)⟩)
  have p3 := strncpy_plain 201 (by decide) t3 n3
    (fun c hc => ⟨(c3 c hc).1, hchars c (i2 c (c3 c hc).2)⟩)
  have p5 := strncpy_plain 101 (by decide) t5 n5
    (fun c hc => ⟨(c5 c hc).1, hchars c (i4 c (c5 c hc).2)⟩)
  have p6 := strncpy_plain 6 (by decide) t6 n6
    (fun c hc => ⟨(c6 c hc).1, hchars c (i5 c (c6 c hc).2)⟩)
  have p7 := strncpy_plain 11 (by decide) t7 n7
    (fun c hc => ⟨(c7 c hc).1, hchars c (i6 c (c7 c hc).2)⟩)
  have p4 := printInt_atoi_length t4 n4
  rw [← h]
  refine ⟨p1.1, p2.1, p3.1, p5.1, p6.1, p7.1, p1.2.1, p2.2.1, p3.2.1, p5.2.1, p6.2.1,
    p7.2.1, ?_⟩
  simp only [recordLine, List.length_append, List.length_cons]
  have q1 := p1.2.2
  have q2 := p2.2.2
  have q3 := p3.2.2
  have q5 := p5.2.2
  have q6 := p6.2.2
  have q7 := p7.2.2
  omega

theorem readChars_fst_length_le (n : Nat) : ∀ (s : List Char),
    (readChars n s).1.length ≤ n := by
  induction n with
  | zero => intro s; simp [readChars]
  | succ k ih =>
    intro s
    cases s with
    | nil => simp [readChars]
    | cons c cs =>
      unfold readChars
      by_cases h : c = '\n'
      · simp [h]
      · simp only [h, if_false, List.length_cons]
        exact Nat.succ_le_succ (ih cs)

theorem loadStep_compact (buf : List Char) (st : LoadState) (hbuf : buf.length ≤ 255)
    (hst : ∀ b ∈ st.database, compactRecord b) :
    ∀ b ∈ (loadStep buf st).database, compactRecord b := by
  intro b hb
  unfold loadStep at hb
  cases hp : parseLine (stripNewline buf) with
  | error e =>
    rw [hp] at hb
    exact hst b hb
  | ok book =>
    rw [hp] at hb
    simp only [List.mem_append, List.mem_singleton] at hb
    rcases hb with hb | hb
    · exact hst b hb
    · rw [hb]
      apply parseLine_ok_compact _ _ hp
      · intro c hc
        have := List.mem_takeWhile_imp hc
        simpa using this
      · have := (List.takeWhile_sublist (fun c => c ≠ '\n' && c ≠ '\x00') (l := buf)).length_le
        unfold stripNewline
        omega

theorem loadLoop_compact (fuel : Nat) : ∀ (file : List Char) (st : LoadState),
    (∀ b ∈ st.database, compactRecord b) →
    ∀ b ∈ (loadLoop fuel file st).database, compactRecord b := by
  induction fuel with
  | zero => intro file st h; exact h
  | succ f ih =>
    intro file st h
    cases file with
    | nil => exact h
    | cons c cs =>
      simp only [loadLoop]
      exact ih _ _ (loadStep_compact _ st (readChars_fst_length_le 255 _) h)

/-- Every record `loadDatabase` returns is one it can read back. -/
theorem loadDatabase_compact (file : List Char) :
    ∀ b ∈ (loadDatabase file).database, compactRecord b :=
  loadLoop_compact _ _ _ (by simp)

/-- C19. For every file content, writing the store that `loadDatabase` returns for it
with `saveDatabase` and loading that text again gives the same records in the same
order and the same count.  (The model of `atoi` is exact for every year field; it is
the C function where the value fits an `int`.) -/
theorem load_save_load_idempotent (file : List Char) :
    (loadDatabase (saveDatabase (loadDatabase file).database
      (loadDatabase file).currentSize)).database = (loadDatabase file).database ∧
    (loadDatabase (saveDatabase (loadDatabase file).database
      (loadDatabase file).currentSize)).currentSize = (loadDatabase file).currentSize := by
  have h := load_save_compact (loadDatabase file).database (loadDatabase_compact file)
  exact ⟨h, by simp only [LoadState.currentSize] at h ⊢; rw [h]⟩

/-- A file with an over-long first field, a line of five fields, an empty field, a year
that is not a number and an empty line: what is loaded from it is loaded again from
its own flush. -/
theorem load_save_load_idempotent_witness :
    (loadDatabase (saveDatabase
      (loadDatabase "12345678901234567|Dune|Frank Herbert|12abc|Novel|false|-\na|b|c|d|e\n1|2||4|5|6|7\n\n9780000000001|Clean Code|Robert Martin|2008|Software|false|-".toList).database
      (loadDatabase "12345678901234567|Dune|Frank Herbert|12abc|Novel|false|-\na|b|c|d|e\n1|2||4|5|6|7\n\n9780000000001|Clean Code|Robert Martin|2008|Software|false|-".toList).currentSize)).database =
    [{ isbn := "12345678901234".toList, nameBook := "Dune".toList,
       authors := "Frank Herbert".toList, year := 12, genre := "Novel".toList,
       date := "-".toList, borrowed := "false".toList }, sampleA] := by
  rw [(load_save_load_idempotent _).1]
  decide

/-! ### The frame of borrowBook and returnBook -/

theorem borrowBook_length (isbn : List Char) (tm : Tm) :
    ∀ (database : List Database) (currentSize : Nat),
    (borrowBook database currentSize isbn tm).1.length = database.length := by
  intro database
  induction database with
  | nil => intro currentSize; cases currentSize <;> rfl
  | cons a rest ih =>
    intro currentSize
    cases currentSize with
    | zero => rfl
    | succ n =>
      unfold borrowBook
      by_cases h1 : a.isbn = isbn
      · rw [if_pos h1]
        split <;> rfl
      · rw [if_neg h1]
        simp only [List.length_cons, ih n]

theorem returnBook_length (isbn : List Char) :
    ∀ (database : List Database) (currentSize : Nat),
    (returnBook database currentSize isbn).1.length = database.length := by
  intro database
  induction database with
  | nil => intro currentSize; cases currentSize <;> rfl
  | cons a rest ih =>
    intro currentSize
    cases currentSize with
    | zero => rfl
    | succ n =>
      unfold returnBook
      by_cases h1 : a.isbn = isbn
      · rw [if_pos h1]
        split <;> rfl
      · rw [if_neg h1]
        simp only [List.length_cons, ih n]

theorem frame_of_set (database : List Database) (i : Nat) (b b1 : Database)
    (hb : database[i]? = some b) (h1 : b1.isbn = b.isbn) (h2 : b1.nameBook = b.nameBook)
    (h3 : b1.authors = b.authors) (h4 : b1.year = b.year) (h5 : b1.genre = b.genre) :
    (∀ j, j ≠ i → (database.set i b1)[j]? = database[j]?) ∧
    ∃ c, (database.set i b1)[i]? = some c ∧ c.isbn = b.isbn ∧ c.nameBook = b.nameBook ∧
      c.authors = b.authors ∧ c.year = b.year ∧ c.genre = b.genre := by
  have hlen : i < database.length := by
    rcases Nat.lt_or_ge i database.length with h | h
    · exact h
    · rw [List.getElem?_eq_none h] at hb; cases hb
  constructor
  · intro j hj
    rw [List.getElem?_set]
    have : ¬ i = j := fun e => hj e.symm
    simp [this]
  · exact ⟨b1, by simp [List.getElem?_set, hlen], h1, h2, h3, h4, h5⟩

theorem frame_of_same (database : List Database) (i : Nat) (b : Database)
    (hb : database[i]? = some b) :
    (∀ j, j ≠ i → database[j]? = database[j]?) ∧
    ∃ c, database[i]? = some c ∧ c.isbn = b.isbn ∧ c.nameBook = b.nameBook ∧
      c.authors = b.authors ∧ c.year = b.year ∧ c.genre = b.genre :=
  ⟨fun _ _ => rfl, b, hb, rfl, rfl, rfl, rfl, rfl⟩

/-- C21. For every array, count, ISBN and local time, `borrowBook` and `returnBook`
return an array of the same length (the count is never written).  When no record of
the store has the ISBN the array is returned as it was.  Otherwise, with `i` the
smallest index whose record `b` has the ISBN, every slot other than `i` holds what it
held (also later records with the same ISBN), and the record at `i` has the `isbn`,
`nameBook`, `authors`, `year` and `genre` of `b`: only `borrowed` and `date` can differ. -/
theorem borrow_return_frame (database : List Database) (currentSize : Nat)
    (isbn : List Char) (tm : Tm) :
    (borrowBook database currentSize isbn tm).1.length = database.length ∧
    (returnBook database currentSize isbn).1.length = database.length ∧
    ((∀ b ∈ database.take currentSize, b.isbn ≠ isbn) →
      (borrowBook database currentSize isbn tm).1 = database ∧
      (returnBook database currentSize isbn).1 = database) ∧
    (∀ i b, i < currentSize → database[i]? = some b → b.isbn = isbn →
      (∀ j a, j < i → database[j]? = some a → a.isbn ≠ isbn) →
      ((∀ j, j ≠ i → (borrowBook database currentSize isbn tm).1[j]? = database[j]?) ∧
        ∃ c, (borrowBook database currentSize isbn tm).1[i]? = some c ∧ c.isbn = b.isbn ∧
          c.nameBook = b.nameBook ∧ c.authors = b.authors ∧ c.year = b.year ∧
          c.genre = b.genre) ∧
      ((∀ j, j ≠ i → (returnBook database currentSize isbn).1[j]? = database[j]?) ∧
        ∃ c, (returnBook database currentSize isbn).1[i]? = some c ∧ c.isbn = b.isbn ∧
          c.nameBook = b.nameBook ∧ c.authors = b.authors ∧ c.year = b.year ∧
          c.genre = b.genre)) := by
  refine ⟨borrowBook_length isbn tm database currentSize,
    returnBook_length isbn database currentSize, ?_, ?_⟩
  · intro hno
    rw [borrowBook_notFound isbn tm database currentSize hno,
      returnBook_notFound isbn database currentSize hno]
    exact ⟨rfl, rfl⟩
  · intro i b hi hb hisbn hfirst
    have h1 := borrowBook_at isbn tm database currentSize i b hi hb hisbn hfirst
    have h2 := returnBook_at isbn database currentSize i b hi hb hisbn hfirst
    constructor
    · rw [h1]
      split
      · exact frame_of_set database i b _ hb rfl rfl rfl rfl rfl
      · exact frame_of_same database i b hb
    · rw [h2]
      split
      · exact frame_of_set database i b _ hb rfl rfl rfl rfl rfl
      · exact frame_of_same database i b hb

/-- In a store whose first and third records share an ISBN, borrowing that ISBN changes
the first record only, and only its `borrowed` and `date`; returning the ISBN of the
borrowed second record changes that record only. -/
theorem borrow_return_frame_witness :
    (borrowBook [sampleA, sampleB, { sampleC with isbn := sampleA.isbn }] 3 sampleA.isbn
      sampleTm).1 =
      [{ sampleA with borrowed := ['t', 'r', 'u', 'e'],
                      date := ['0', '5', '-', '0', '3', '-', '2', '0', '2', '4'] },
       sampleB, { sampleC with isbn := sampleA.isbn }] ∧
    (returnBook [sampleA, sampleB, sampleC] 3 sampleB.isbn).1.length = 3 ∧
    ∀ j, j ≠ 1 →
      (returnBook [sampleA, sampleB, sampleC] 3 sampleB.isbn).1[j]? =
        [sampleA, sampleB, sampleC][j]? :=
  ⟨by decide,
   (borrow_return_frame [sampleA, sampleB, sampleC] 3 sampleB.isbn sampleTm).2.1,
   ((borrow_return_frame [sampleA, sampleB, sampleC] 3 sampleB.isbn sampleTm).2.2.2 1
      sampleB (by decide) (by decide) rfl
      (fun j a hj ha => by
        interval_cases j
        simp at ha
        subst ha
        decide)).2.1⟩

end DigitalLibrary
